import Mathlib

/-!
Verification development for the Directorium agent core: the path
authorization module (`src/agent_core/tools/path_security.py`), the three
mutation tools (`create_folder.py`, `move_file.py`, `rename_file.py`) and the
staged-action codec and confirmation loop (`src/agent_core/main.py`).

The embedding is symlink-free: `Path.resolve()` is modelled as lexical
canonicalization (expanding `~`, dropping `.` and empty components, folding
`..`), and the filesystem is a finite map from canonical absolute paths to an
entry kind.  The whitelist cache of `_load_whitelist` is modelled by its
result: the `allowed_roots` list carried in `Env`.
-/

namespace Directorium

/-! ### Character and list primitives (Python string operations) -/

/-- ASCII whitespace, as used by Python `str.strip` and the `\s` class. -/
def isSpaceChar (c : Char) : Bool :=
  c == ' ' || c == '\t' || c == '\n' || c == '\r' || c == '\x0b' || c == '\x0c'

/-- Python `str.strip()` on a character list. -/
def trimChars (cs : List Char) : List Char :=
  ((cs.dropWhile isSpaceChar).reverse.dropWhile isSpaceChar).reverse

/-- Python `str.startswith` on character lists. -/
def isPrefixList : List Char → List Char → Bool
  | [], _ => true
  | _ :: _, [] => false
  | a :: as, b :: bs => a == b && isPrefixList as bs

/-- Python `str.split(sep, 1)`: split at the first occurrence of `sep`;
`none` when `sep` does not occur (also the model of `sep in s`). -/
def splitFirst (sep : List Char) : List Char → Option (List Char × List Char)
  | [] => none
  | c :: cs =>
    if isPrefixList sep (c :: cs) then some ([], (c :: cs).drop sep.length)
    else
      match splitFirst sep cs with
      | some (a, b) => some (c :: a, b)
      | none => none

/-- Python `str.split("/")`: split on every slash, keeping empty pieces. -/
def splitSlash : List Char → List (List Char)
  | [] => [[]]
  | c :: cs =>
    if c == '/' then [] :: splitSlash cs
    else
      match splitSlash cs with
      | h :: t => (c :: h) :: t
      | [] => [[c]]

/-- Python `"/".join` on component lists. -/
def joinSlash : List (List Char) → List Char
  | [] => []
  | [x] => x
  | x :: y :: t => x ++ '/' :: joinSlash (y :: t)

/-! ### Path canonicalization (`pathlib.Path.expanduser().resolve()`,
symlink-free) and `os.path.commonpath` -/

/-- The path components `os.path.commonpath` compares: `str.split("/")`
with empty components and `.` dropped. -/
def comps (cs : List Char) : List (List Char) :=
  (splitSlash cs).filter (fun c => !c.isEmpty && c != ['.'])

/-- Longest common leading run of components. -/
def commonPrefixSeq : List (List Char) → List (List Char) → List (List Char)
  | a :: as, b :: bs => if a == b then a :: commonPrefixSeq as bs else []
  | _, _ => []

/-- `os.path.commonpath([p, q])` for two absolute POSIX paths. -/
def commonpath (p q : String) : String :=
  ⟨'/' :: joinSlash (commonPrefixSeq (comps p.data) (comps q.data))⟩

/-- Lexical canonicalization stack: drop `.` and empty components, fold `..`
onto the accumulator (at the root `..` is a no-op, as in POSIX). -/
def resolveComps : List (List Char) → List (List Char) → List (List Char)
  | acc, [] => acc
  | acc, c :: rest =>
    if c.isEmpty || c == ['.'] then resolveComps acc rest
    else if c == ['.', '.'] then resolveComps acc.dropLast rest
    else resolveComps (acc ++ [c]) rest

/-- Does the path start with `/` (`PurePosixPath.is_absolute`)? -/
def isAbsoluteChars (cs : List Char) : Bool :=
  match cs with
  | '/' :: _ => true
  | _ => false

/-- `Path(p).resolve()` for an absolute `p` in a symlink-free filesystem:
purely lexical canonicalization to `/c1/.../cn` form. -/
def resolveAbs (p : String) : String :=
  ⟨'/' :: joinSlash (resolveComps [] (splitSlash p.data))⟩

/-- `Path(p).expanduser()`: a leading `~` component is replaced by the home
directory; a `~user` form is left unchanged in this model. -/
def expanduser (home p : String) : String :=
  if p == "~" then home
  else if isPrefixList (['~'] ++ ['/']) p.data then ⟨home.data ++ p.data.drop 1⟩
  else p

/-! ### PathAuthorizer (`path_security.py`) -/

/-- `ACCESS_DENIED_ERROR` of `path_security.py`. -/
def ACCESS_DENIED_ERROR : String :=
  "Error: Access Denied. This path is outside the authorized security zones."

/-- The environment a tool call runs against: the whitelist as returned by
`_load_whitelist()` (the yaml file and its mtime cache are modelled by this
result) and the home directory used by `expanduser`. -/
structure Env where
  allowed_roots : List String
  home : String
deriving DecidableEq, Repr

/-- `is_path_authorized` of `path_security.py`: the tuple
`(is_authorized, resolved_path, error)`.  The source loops over the roots and
returns on the first root whose `os.path.commonpath` with the resolved path
equals the root; the result does not depend on which root matched, so the
loop is rendered as `List.any`.  Roots are re-resolved with
`str(Path(root).resolve())`; `_load_whitelist` stores them absolute, which
is what the lexical `resolveAbs` assumes. -/
def is_path_authorized (env : Env) (target_path : String) :
    Bool × Option String × Option String :=
  if target_path == "" then
    (false, none, some "Error: No path provided.")
  else if env.allowed_roots.isEmpty then
    (false, none, some "Error: No authorized paths configured in whitelist.")
  else
    let expanded := expanduser env.home target_path
    if !isAbsoluteChars expanded.data then
      (false, none,
        some "Error: Relative paths are not supported. Please provide an absolute path.")
    else
      let resolved := resolveAbs expanded
      if env.allowed_roots.any
          (fun root => commonpath (resolveAbs root) resolved == resolveAbs root) then
        (true, some resolved, none)
      else
        (false, none, some ACCESS_DENIED_ERROR)

/-! ### Filesystem model -/

/-- What a path can be on disk. -/
inductive EntryKind
  | dir
  | file
deriving DecidableEq, Repr

/-- A finite symlink-free filesystem: canonical absolute path to entry kind. -/
structure FS where
  entries : List (String × EntryKind)
deriving DecidableEq, Repr

/-- Entry at a canonical path, if any. -/
def FS.lookup (fs : FS) (p : String) : Option EntryKind :=
  (fs.entries.find? (fun e => e.1 == p)).map (fun e => e.2)

/-- `os.path.exists` on a canonical path. -/
def FS.pathExists (fs : FS) (p : String) : Bool :=
  (fs.lookup p).isSome

/-- `os.path.isdir` on a canonical path. -/
def FS.isdir (fs : FS) (p : String) : Bool :=
  fs.lookup p == some EntryKind.dir

/-- `os.path.dirname` of a canonical absolute path. -/
def dirname (p : String) : String :=
  match (comps p.data).dropLast with
  | [] => "/"
  | cs => ⟨'/' :: joinSlash cs⟩

/-- `os.path.basename` (the text after the last slash, possibly empty). -/
def basename (p : String) : String :=
  ⟨(splitSlash p.data).getLastD []⟩

/-- Record a new directory. -/
def insertDir (fs : FS) (p : String) : FS :=
  ⟨fs.entries ++ [(p, EntryKind.dir)]⟩

/-- The chain of ancestor paths `os.makedirs` creates, shortest first:
`/a`, `/a/b`, ..., up to the target itself. -/
def prefixPaths (p : String) : List String :=
  (List.range (comps p.data).length).map
    (fun i => ⟨'/' :: joinSlash ((comps p.data).take (i + 1))⟩)

/-- Walk the ancestor chain, creating missing directories; stops with an
error (and the directories created so far) when a link of the chain exists
as a plain file. -/
def makedirsList : FS → List String → FS × Option String
  | fs, [] => (fs, none)
  | fs, q :: qs =>
    match fs.lookup q with
    | some EntryKind.dir => makedirsList fs qs
    | some EntryKind.file => (fs, some ("File exists: " ++ q))
    | none => makedirsList (insertDir fs q) qs

/-- `os.makedirs(p, exist_ok=True)` on the canonical path `p`. -/
def makedirs (fs : FS) (p : String) : FS × Option String :=
  makedirsList fs (prefixPaths p)

/-- Rename `src` to `dst`: the entry at `dst` (if a file held it) is
replaced, and every entry at `src` or below moves under `dst`. -/
def renameEntry (fs : FS) (src dst : String) : FS :=
  ⟨(fs.entries.filter (fun e => !(e.1 == dst))).map (fun e =>
    if e.1 == src then (dst, e.2)
    else if isPrefixList (src.data ++ ['/']) e.1.data then
      (⟨dst.data ++ e.1.data.drop src.data.length⟩, e.2)
    else e)⟩

/-- `shutil.move(src, dst)` in the same-volume, symlink-free model: when
`dst` is an existing directory the source moves inside it (erroring if that
target exists already, as `shutil.move` does), else a plain rename. -/
def shutilMove (fs : FS) (src dst : String) : FS × Option String :=
  if fs.isdir dst then
    let real_dst : String := ⟨dst.data ++ '/' :: (basename src).data⟩
    if fs.pathExists real_dst then
      (fs, some ("Destination path '" ++ real_dst ++ "' already exists"))
    else (renameEntry fs src real_dst, none)
  else (renameEntry fs src dst, none)

/-! ### Staged-action encodings (the strings the three tools emit) -/

/-- The `STAGED_ACTION` string `create_folder` returns when not confirmed
(`create_folder.py`, lines 85-95). -/
def stagedCreateAction (folder_path : String) (withParents : Bool) : String :=
  if withParents then
    "STAGED_ACTION: create_folder -> folder_path='" ++ folder_path ++
      "' (will create parent directories)"
  else
    "STAGED_ACTION: create_folder -> folder_path='" ++ folder_path ++ "'"

/-- The `STAGED_ACTION` string `move_file` returns when not confirmed
(`move_file.py`, lines 92-96). -/
def stagedMoveAction (source_path destination_path : String) : String :=
  "STAGED_ACTION: move_file -> source='" ++ source_path ++
    "', destination='" ++ destination_path ++ "'"

/-- The `STAGED_ACTION` string `rename_file` returns when not confirmed
(`rename_file.py`, lines 101-105). -/
def stagedRenameAction (old_path new_path : String) : String :=
  "STAGED_ACTION: rename_file -> old_path='" ++ old_path ++
    "', new_path='" ++ new_path ++ "'"

/-! ### The three mutation tools -/

/-- `create_folder` of `create_folder.py` as a state transformer on the
filesystem, returning the new state and the result string. -/
def create_folder (env : Env) (fs : FS) (folder_path : String)
    (confirmed : Bool) : FS × String :=
  match is_path_authorized env folder_path with
  | (false, _, err) => (fs, err.getD "")
  | (true, resolvedOpt, _) =>
    let resolved := resolvedOpt.getD ""
    if fs.pathExists resolved then
      if fs.isdir resolved then
        (fs, "Folder already exists: \"" ++ folder_path ++ "\"")
      else
        (fs, "Error: A file already exists at this path: \"" ++ folder_path ++ "\"")
    else
      let will_create_parents := !fs.pathExists (dirname resolved)
      if !confirmed then
        (fs, stagedCreateAction folder_path will_create_parents)
      else
        match makedirs fs resolved with
        | (fs2, none) => (fs2, "Successfully created folder: \"" ++ folder_path ++ "\"")
        | (fs2, some e) => (fs2, "Error: " ++ e)

/-- `move_file` of `move_file.py` as a state transformer. -/
def move_file (env : Env) (fs : FS) (source_path destination_path : String)
    (confirmed : Bool) : FS × String :=
  match is_path_authorized env source_path with
  | (false, _, err) => (fs, err.getD "")
  | (true, rsOpt, _) =>
    match is_path_authorized env destination_path with
    | (false, _, err) => (fs, err.getD "")
    | (true, rdOpt, _) =>
      let resolved_source := rsOpt.getD ""
      let resolved_dest := rdOpt.getD ""
      if !fs.pathExists resolved_source then
        (fs, "Error: Source path does not exist: \"" ++ source_path ++ "\"")
      else
        let item_type := if fs.isdir resolved_source then "directory" else "file"
        if !confirmed then
          (fs, stagedMoveAction source_path destination_path)
        else
          match shutilMove fs resolved_source resolved_dest with
          | (fs2, none) =>
            (fs2, "Successfully moved " ++ item_type ++ " \"" ++ source_path ++
              "\" to \"" ++ destination_path ++ "\"")
          | (fs2, some e) => (fs2, "Error: " ++ e)

/-- `rename_file` of `rename_file.py` as a state transformer. -/
def rename_file (env : Env) (fs : FS) (old_path new_path : String)
    (confirmed : Bool) : FS × String :=
  match is_path_authorized env old_path with
  | (false, _, err) => (fs, err.getD "")
  | (true, roOpt, _) =>
    match is_path_authorized env new_path with
    | (false, _, err) => (fs, err.getD "")
    | (true, rnOpt, _) =>
      let resolved_old := roOpt.getD ""
      let resolved_new := rnOpt.getD ""
      if !fs.pathExists resolved_old then
        (fs, "Error: Path does not exist: \"" ++ old_path ++ "\"")
      else if fs.pathExists resolved_new then
        (fs, "Error: Destination already exists: \"" ++ new_path ++
          "\". Use move_file to overwrite.")
      else
        let item_type := if fs.isdir resolved_old then "directory" else "file"
        if !confirmed then
          (fs, stagedRenameAction old_path new_path)
        else
          (renameEntry fs resolved_old resolved_new,
            "Successfully renamed " ++ item_type ++ " \"" ++ basename old_path ++
              "\" to \"" ++ basename new_path ++ "\"")

/-! ### Staged-action codec: `parse_staged_action` of `main.py` -/

/-- `\w` of the parsing regex (ASCII range). -/
def isWordChar (c : Char) : Bool :=
  c.isAlphanum || c == '_'

/-- Split at the first occurrence of the character `q`: the greedy
`[^q]*` followed by a literal `q`; `none` when `q` never occurs. -/
def breakAtChar (q : Char) : List Char → Option (List Char × List Char)
  | [] => none
  | c :: cs =>
    if c == q then some ([], cs)
    else
      match breakAtChar q cs with
      | some (a, b) => some (c :: a, b)
      | none => none

/-- One attempt of the regex `(\w+)='([^']*)'|(\w+)="([^"]*)"` anchored at
the start of `cs`: the key, the value, and the text after the closing
quote. -/
def matchAt (cs : List Char) : Option (String × String × List Char) :=
  let w := cs.takeWhile isWordChar
  if w.isEmpty then none
  else
    match cs.dropWhile isWordChar with
    | c1 :: q :: rest =>
      if c1 == '=' && (q == '\'' || q == '"') then
        match breakAtChar q rest with
        | some (v, rest2) => some (⟨w⟩, ⟨v⟩, rest2)
        | none => none
      else none
    | _ => none

/-- `re.findall` for the key/value pattern: leftmost non-overlapping
matches, advancing one character on failure.  The fuel argument bounds the
scan by the input length so the recursion is structural. -/
def scanFuel : Nat → List Char → List (String × String)
  | 0, _ => []
  | _ + 1, [] => []
  | n + 1, c :: cs =>
    match matchAt (c :: cs) with
    | some (k, v, rest) => (k, v) :: scanFuel n rest
    | none => scanFuel n cs

/-- All key/value matches of the pattern in `cs`, in scan order. -/
def scanPairs (cs : List Char) : List (String × String) :=
  scanFuel cs.length cs

/-- The suffix after the last `(` of the list, when one occurs. -/
def afterLastOpen : List Char → Option (List Char)
  | [] => none
  | c :: t =>
    match afterLastOpen t with
    | some r => some r
    | none => if c == '(' then some t else none

/-- `re.sub(r'\s*\([^)]*\)\s*$', '', s)`: when the string ends, after
optional whitespace, in `)`, and some `(` occurs with no `)` between it
and that final `)`, the leftmost such `(` starts the match (the regex
scans left to right and `[^)]*` cannot cross a close paren), so the text
from the whitespace run just before that `(` through the end of the
string is deleted; otherwise the string is unchanged.  The computation
runs on the reversed string: `seg` is the reversed text between the final
`)` and the nearest earlier `)`, and the suffix after `seg`'s last `(` is
the reversed text standing before the leftmost eligible `(`. -/
def stripTrailingParen (cs : List Char) : List Char :=
  match cs.reverse.dropWhile isSpaceChar with
  | c :: r2 =>
    if c == ')' then
      let seg := r2.takeWhile (fun x => !(x == ')'))
      match afterLastOpen seg with
      | some segB =>
        ((segB.dropWhile isSpaceChar) ++ r2.dropWhile (fun x => !(x == ')'))).reverse
      | none => cs
    else cs
  | [] => cs

/-- Python dict assignment `m[k] = v`: overwrite in place or append. -/
def dictInsert (m : List (String × String)) (k v : String) :
    List (String × String) :=
  if m.any (fun kv => kv.1 == k) then
    m.map (fun kv => if kv.1 == k then (k, v) else kv)
  else m ++ [(k, v)]

/-- Python `str.split(sep)` (all occurrences), with fuel for structural
recursion. -/
def splitAllFuel (sep : List Char) : Nat → List Char → List (List Char)
  | 0, cs => [cs]
  | n + 1, cs =>
    match splitFirst sep cs with
    | some (a, b) => a :: splitAllFuel sep n b
    | none => [cs]

/-- A single or double quote. -/
def isQuoteChar (c : Char) : Bool :=
  c == '\'' || c == '"'

/-- Python `str.strip("'\"")`: shave quotes off both ends. -/
def stripQuoteEnds (cs : List Char) : List Char :=
  ((cs.dropWhile isQuoteChar).reverse.dropWhile isQuoteChar).reverse

/-- The unquoted `key=value` fallback of `parse_staged_action` (lines
155-163 of `main.py`): split on `", "`, then on the first `=` of each
piece. -/
def fallbackPairs (cs : List Char) : List (String × String) :=
  (splitAllFuel (", ".data) cs.length cs).foldl
    (fun acc part =>
      match splitFirst (['=']) part with
      | some (k, v) => dictInsert acc ⟨trimChars k⟩ ⟨stripQuoteEnds (trimChars v)⟩
      | none => acc) []

/-- The structured value `parse_staged_action` builds: tool name and the
ordered key-to-value argument mapping (a Python dict in the source). -/
structure PendingAction where
  tool_name : String
  args : List (String × String)
deriving DecidableEq, Repr

/-- `parse_staged_action` of `main.py` (lines 111-167) on the character
list of the input. -/
def parseCore (cs : List Char) : Option PendingAction :=
  if isPrefixList ("STAGED_ACTION:".data) cs then
    let content := trimChars (cs.drop 14)
    match splitFirst (" -> ".data) content with
    | none => none
    | some (toolPart, argsPart) =>
      let args0 := stripTrailingParen (trimChars argsPart)
      let args1 := (scanPairs args0).foldl (fun m kv => dictInsert m kv.1 kv.2) []
      let args2 := if args1.isEmpty then fallbackPairs args0 else args1
      some ⟨⟨trimChars toolPart⟩, args2⟩
  else none

/-- `parse_staged_action`: `none` models the Python `None`. -/
def parse_staged_action (s : String) : Option PendingAction :=
  parseCore s.data

/-! ### Confirmation state machine (`main.py`) -/

/-- `CONFIRM_KEYWORDS` of `main.py`. -/
def CONFIRM_KEYWORDS : List String := ["y", "yes"]

/-- `CANCEL_KEYWORDS` of `main.py`. -/
def CANCEL_KEYWORDS : List String := ["n", "no", "cancel", "abort"]

/-- Python `str.strip()` on strings. -/
def stripStr (s : String) : String :=
  ⟨trimChars s.data⟩

/-- Python `user_input.lower().strip()`. -/
def normalizeInput (s : String) : String :=
  ⟨trimChars (s.data.map Char.toLower)⟩

/-- `is_confirmation` of `main.py`. -/
def is_confirmation (s : String) : Bool :=
  CONFIRM_KEYWORDS.contains (normalizeInput s)

/-- `is_cancellation` of `main.py`. -/
def is_cancellation (s : String) : Bool :=
  CANCEL_KEYWORDS.contains (normalizeInput s)

/-- First value bound to key `k` in the parsed argument mapping (the
mapping has distinct keys, so this is Python dict lookup). -/
def lookupArg (args : List (String × String)) (k : String) : Option String :=
  (args.find? (fun kv => kv.1 == k)).map (fun kv => kv.2)

/-- `execute_single_action` of `main.py` (lines 170-200): dispatch on the
tool name and call the tool with `**args` plus `confirmed=True`.  Keyword
binding follows Python: a required parameter missing from `args` raises a
`TypeError`, a `confirmed` key in `args` collides with the explicit
`confirmed=True`; both are caught by the `except` and become the
`"Error executing ..."` string, leaving the filesystem untouched.  Extra
keys land in the tools' `**kwargs` and are ignored. -/
def execute_single_action (env : Env) (fs : FS) (action : PendingAction) :
    FS × String :=
  if action.tool_name == "move_file" then
    if (lookupArg action.args "confirmed").isSome then
      (fs, "Error executing move_file: move_file() got multiple values for keyword argument 'confirmed'")
    else
      match lookupArg action.args "source_path", lookupArg action.args "destination_path" with
      | some s, some d => move_file env fs s d true
      | _, _ =>
        (fs, "Error executing move_file: move_file() missing required arguments: 'source_path' and 'destination_path'")
  else if action.tool_name == "create_folder" then
    if (lookupArg action.args "confirmed").isSome then
      (fs, "Error executing create_folder: create_folder() got multiple values for keyword argument 'confirmed'")
    else
      match lookupArg action.args "folder_path" with
      | some p => create_folder env fs p true
      | none =>
        (fs, "Error executing create_folder: create_folder() missing required argument: 'folder_path'")
  else if action.tool_name == "rename_file" then
    if (lookupArg action.args "confirmed").isSome then
      (fs, "Error executing rename_file: rename_file() got multiple values for keyword argument 'confirmed'")
    else
      match lookupArg action.args "old_path", lookupArg action.args "new_path" with
      | some o, some n => rename_file env fs o n true
      | _, _ =>
        (fs, "Error executing rename_file: rename_file() missing required arguments: 'old_path' and 'new_path'")
  else
    (fs, "Error: Unknown tool '" ++ action.tool_name ++ "'")

/-- What `process_staging_queue` hands back to `run_interactive_session`:
the result strings of the executed actions, and the interrupting input (if
any) that is forwarded as a brand-new instruction. -/
structure QueueResult where
  results : List String
  new_query : Option String
deriving DecidableEq, Repr

/-- `process_staging_queue` of `main.py` (lines 237-291), with the human
turn modelled as a list of input lines (`input(prompt).strip()` per loop
iteration; exhausting the list is the `EOFError`/interrupt `break`, which
abandons the remaining queue).  A confirm token executes the head and pops
it; a cancel token pops the head without executing; any other input
returns at once, dropping the whole remaining queue and carrying the input
out as `new_query`. -/
def process_staging_queue (env : Env) :
    FS → List PendingAction → List String → FS × QueueResult
  | fs, [], _ => (fs, ⟨[], none⟩)
  | fs, _ :: _, [] => (fs, ⟨[], none⟩)
  | fs, a :: rest, line :: lines =>
    let user_input := stripStr line
    if is_confirmation user_input then
      let r := execute_single_action env fs a
      let step := process_staging_queue env r.1 rest lines
      (step.1, ⟨r.2 :: step.2.results, step.2.new_query⟩)
    else if is_cancellation user_input then
      process_staging_queue env fs rest lines
    else
      (fs, ⟨[], some user_input⟩)

/-! ### Derived notions used in the specifications -/

/-- Python `str.startswith` on strings. -/
def strStarts (pre s : String) : Bool :=
  isPrefixList pre.data s.data

/-- The canonical form `is_path_authorized` computes for an authorized
path: `Path(p).expanduser().resolve()`. -/
def authPath (env : Env) (p : String) : String :=
  resolveAbs (expanduser env.home p)

/-- Is the first component list a leading run of the second?  The
spec's component-wise notion of "equal to the root or a descendant of
it". -/
def isHeadSeq : List (List Char) → List (List Char) → Bool
  | [], _ => true
  | _ :: _, [] => false
  | a :: as, b :: bs => a == b && isHeadSeq as bs

/-! ### Basic list lemmas -/

theorem isPrefixList_append_of (a : List Char) :
    ∀ b c, isPrefixList a b = true → isPrefixList a (b ++ c) = true := by
  induction a with
  | nil => intro b c _; rfl
  | cons x xs ih =>
    intro b c h
    cases b with
    | nil => simp [isPrefixList] at h
    | cons y ys =>
      simp only [isPrefixList, Bool.and_eq_true] at h ⊢
      exact ⟨h.1, ih ys c h.2⟩

theorem takeWhile_append_all (p : Char → Bool) :
    ∀ (k rest : List Char), (∀ c ∈ k, p c = true) →
      List.takeWhile p (k ++ rest) = k ++ List.takeWhile p rest := by
  intro k
  induction k with
  | nil => intro rest _; rfl
  | cons x xs ih =>
    intro rest h
    have hx : p x = true := h x (by simp)
    simp [List.takeWhile_cons, hx, ih rest (fun c hc => h c (by simp [hc]))]

theorem dropWhile_append_all (p : Char → Bool) :
    ∀ (k rest : List Char), (∀ c ∈ k, p c = true) →
      List.dropWhile p (k ++ rest) = List.dropWhile p rest := by
  intro k
  induction k with
  | nil => intro rest _; rfl
  | cons x xs ih =>
    intro rest h
    have hx : p x = true := h x (by simp)
    simp [List.dropWhile_cons, hx, ih rest (fun c hc => h c (by simp [hc]))]

theorem breakAtChar_append (q : Char) :
    ∀ v r, q ∉ v → breakAtChar q (v ++ q :: r) = some (v, r) := by
  intro v
  induction v with
  | nil => intro r _; simp [breakAtChar]
  | cons x xs ih =>
    intro r h
    have hx : (x == q) = false := by
      simp only [beq_eq_false_iff_ne]
      intro hxq; exact h (by simp [hxq])
    simp [breakAtChar, hx, ih r (fun hm => h (by simp [hm]))]

theorem breakAtChar_length (q : Char) :
    ∀ l a b, breakAtChar q l = some (a, b) → b.length < l.length := by
  intro l
  induction l with
  | nil => intro a b h; simp [breakAtChar] at h
  | cons x xs ih =>
    intro a b h
    simp only [breakAtChar] at h
    by_cases hx : (x == q) = true
    · simp only [hx, if_true, Option.some.injEq, Prod.mk.injEq] at h
      simp [← h.2]
    · simp only [Bool.not_eq_true] at hx
      simp only [hx, Bool.false_eq_true, if_false] at h
      cases hb : breakAtChar q xs with
      | none => rw [hb] at h; simp at h
      | some ab =>
        rw [hb] at h
        cases ab with
        | mk a' b' =>
          simp only [Option.some.injEq, Prod.mk.injEq] at h
          have := ih a' b' hb
          obtain ⟨h1, h2⟩ := h
          subst h2
          simp only [List.length_cons]
          omega

/-! ### Lemmas about the key/value scanner -/

theorem matchAt_length (cs : List Char) (k v : String) (rest : List Char)
    (h : matchAt cs = some (k, v, rest)) : rest.length < cs.length := by
  simp only [matchAt] at h
  by_cases hw : (cs.takeWhile isWordChar).isEmpty = true
  · simp [hw] at h
  · simp only [Bool.not_eq_true] at hw
    simp only [hw, Bool.false_eq_true, if_false] at h
    cases hd : cs.dropWhile isWordChar with
    | nil => rw [hd] at h; simp at h
    | cons c1 tl =>
      rw [hd] at h
      cases tl with
      | nil => simp at h
      | cons q tl2 =>
        by_cases hg : (c1 == '=' && (q == '\'' || q == '"')) = true
        · simp only [hg, if_true] at h
          cases hb : breakAtChar q tl2 with
          | none => rw [hb] at h; simp at h
          | some ab =>
            rw [hb] at h
            cases ab with
            | mk a b =>
              simp only [Option.some.injEq, Prod.mk.injEq] at h
              have hlt := breakAtChar_length q tl2 a b hb
              have hdw : (c1 :: q :: tl2).length ≤ cs.length := by
                rw [← hd]
                exact (List.dropWhile_sublist isWordChar (l := cs)).length_le
              obtain ⟨-, -, h3⟩ := h
              subst h3
              simp only [List.length_cons] at hdw
              omega
        · simp only [Bool.not_eq_true] at hg
          simp [hg] at h


theorem scanFuel_fuelIrrel :
    ∀ n m (cs : List Char), cs.length ≤ n → cs.length ≤ m →
      scanFuel n cs = scanFuel m cs := by
  intro n
  induction n with
  | zero =>
    intro m cs h1 _
    have : cs = [] := List.eq_nil_of_length_eq_zero (Nat.le_zero.mp h1)
    subst this
    cases m <;> rfl
  | succ n ih =>
    intro m cs h1 h2
    cases cs with
    | nil => cases m <;> rfl
    | cons c tl =>
      cases m with
      | zero => simp at h2
      | succ m' =>
        cases hm : matchAt (c :: tl) with
        | none =>
          simp only [scanFuel, hm]
          simp only [List.length_cons] at h1 h2
          exact ih m' tl (by omega) (by omega)
        | some kvr =>
          obtain ⟨k, v, rest⟩ := kvr
          have hlt := matchAt_length (c :: tl) k v rest hm
          simp only [scanFuel, hm]
          simp only [List.length_cons] at h1 h2 hlt
          rw [ih m' rest (by omega) (by omega)]

theorem scanPairs_nil : scanPairs [] = [] := rfl

theorem scanPairs_match (cs : List Char) (k v : String) (rest : List Char)
    (h : matchAt cs = some (k, v, rest)) :
    scanPairs cs = (k, v) :: scanPairs rest := by
  cases cs with
  | nil => simp [matchAt] at h
  | cons c tl =>
    have hlt := matchAt_length (c :: tl) k v rest h
    simp only [List.length_cons] at hlt
    simp only [scanPairs, List.length_cons, scanFuel, h]
    rw [scanFuel_fuelIrrel tl.length rest.length rest (by omega) (Nat.le_refl _)]

theorem scanPairs_skip (c : Char) (cs : List Char)
    (h : matchAt (c :: cs) = none) : scanPairs (c :: cs) = scanPairs cs := by
  simp only [scanPairs, List.length_cons, scanFuel, h]

theorem matchAt_not_word (c : Char) (cs : List Char)
    (hc : isWordChar c = false) : matchAt (c :: cs) = none := by
  simp [matchAt, List.takeWhile_cons, hc]

theorem matchAt_keyval (k v rest : List Char) (q : Char)
    (hk : k ≠ []) (hkw : ∀ c ∈ k, isWordChar c = true)
    (hq : q = '\'' ∨ q = '"') (hv : q ∉ v) :
    matchAt (k ++ '=' :: q :: (v ++ q :: rest)) = some (⟨k⟩, ⟨v⟩, rest) := by
  have heq : isWordChar '=' = false := by decide
  have ht : List.takeWhile isWordChar (k ++ '=' :: q :: (v ++ q :: rest)) = k := by
    rw [takeWhile_append_all isWordChar k _ hkw]
    simp [List.takeWhile_cons, heq]
  have hdr : List.dropWhile isWordChar (k ++ '=' :: q :: (v ++ q :: rest)) =
      '=' :: q :: (v ++ q :: rest) := by
    rw [dropWhile_append_all isWordChar k _ hkw]
    simp [List.dropWhile_cons, heq]
  have hgq : (('=' : Char) == '=' && (q == '\'' || q == '"')) = true := by
    rcases hq with h | h <;> subst h <;> decide
  have hke : k.isEmpty = false := by
    cases k with
    | nil => exact absurd rfl hk
    | cons a b => rfl
  simp only [matchAt, ht, hdr, hke, Bool.false_eq_true, if_false, hgq, if_true,
    breakAtChar_append q v rest hv]

/-! ### Lemmas about trimming and the trailing-note strip -/

theorem trimChars_eq_dropWhile (l : List Char)
    (h : (l.dropWhile isSpaceChar).reverse.dropWhile isSpaceChar =
      (l.dropWhile isSpaceChar).reverse) :
    trimChars l = l.dropWhile isSpaceChar := by
  simp only [trimChars, h, List.reverse_reverse]

theorem stripTrailingParen_eq_self (cs : List Char) (c : Char) (r : List Char)
    (h : cs.reverse = c :: r) (hsp : isSpaceChar c = false)
    (hpar : (c == ')') = false) :
    stripTrailingParen cs = cs := by
  simp only [stripTrailingParen, h, List.dropWhile_cons, hsp, Bool.false_eq_true,
    if_false, hpar]

theorem takeWhile_all (p : Char → Bool) :
    ∀ l : List Char, (∀ c ∈ l, p c = true) → l.takeWhile p = l := by
  intro l
  induction l with
  | nil => intro _; rfl
  | cons x xs ih =>
    intro h
    simp [List.takeWhile_cons, h x (by simp), ih (fun c hc => h c (by simp [hc]))]

theorem dropWhile_all (p : Char → Bool) :
    ∀ l : List Char, (∀ c ∈ l, p c = true) → l.dropWhile p = [] := by
  intro l
  induction l with
  | nil => intro _; rfl
  | cons x xs ih =>
    intro h
    simp [List.dropWhile_cons, h x (by simp), ih (fun c hc => h c (by simp [hc]))]

theorem afterLastOpen_append_some :
    ∀ (xs ys r : List Char), afterLastOpen ys = some r →
      afterLastOpen (xs ++ ys) = some r := by
  intro xs
  induction xs with
  | nil => intro ys r h; exact h
  | cons c t ih =>
    intro ys r h
    simp only [List.cons_append, afterLastOpen, List.append_eq, ih ys r h]

theorem afterLastOpen_none :
    ∀ ys : List Char, '(' ∉ ys → afterLastOpen ys = none := by
  intro ys
  induction ys with
  | nil => intro _; rfl
  | cons c t ih =>
    intro h
    have hc : (c == '(') = false := by
      simp only [beq_eq_false_iff_ne]
      intro he; exact h (by simp [he])
    simp only [afterLastOpen, ih (fun hm => h (by simp [hm])), hc,
      Bool.false_eq_true, if_false]

theorem afterLastOpen_open (t : List Char) (h : '(' ∉ t) :
    afterLastOpen ('(' :: t) = some t := by
  simp only [afterLastOpen, afterLastOpen_none t h, beq_self_eq_true, if_true]

theorem stripTrailingParen_note (m : List Char)
    (hmo : '(' ∉ m) (hmc : ')' ∉ m) :
    stripTrailingParen (m ++ ('\'' :: (" (will create parent directories)".data))) =
      m ++ ['\''] := by
  have hg : ((" (will create parent directories)".data).reverse) =
      ')' :: ("seirotcerid tnerap etaerc lliw".data ++ ['(', ' ']) := by decide
  have hrev : (m ++ ('\'' :: (" (will create parent directories)".data))).reverse =
      ')' :: ("seirotcerid tnerap etaerc lliw".data ++
        ('(' :: ' ' :: '\'' :: m.reverse)) := by
    rw [List.reverse_append, List.reverse_cons, hg]
    simp [List.append_assoc]
  have hnc : ∀ c ∈ ("seirotcerid tnerap etaerc lliw".data ++
      ('(' :: ' ' :: '\'' :: m.reverse)), (!(c == ')')) = true := by
    intro c hc
    have hcne : c ≠ ')' := by
      rcases List.mem_append.mp hc with h | h
      · intro he
        subst he
        exact absurd h (by decide)
      · simp only [List.mem_cons] at h
        rcases h with h | h | h | h
        · subst h; decide
        · subst h; decide
        · subst h; decide
        · intro he
          subst he
          exact hmc (List.mem_reverse.mp h)
    simp [hcne]
  have hseg : List.takeWhile (fun x => !(x == ')'))
      ("seirotcerid tnerap etaerc lliw".data ++ ('(' :: ' ' :: '\'' :: m.reverse)) =
      "seirotcerid tnerap etaerc lliw".data ++ ('(' :: ' ' :: '\'' :: m.reverse) :=
    takeWhile_all _ _ hnc
  have hdrop : List.dropWhile (fun x => !(x == ')'))
      ("seirotcerid tnerap etaerc lliw".data ++ ('(' :: ' ' :: '\'' :: m.reverse)) =
      [] :=
    dropWhile_all _ _ hnc
  have hopen : afterLastOpen
      ("seirotcerid tnerap etaerc lliw".data ++ ('(' :: ' ' :: '\'' :: m.reverse)) =
      some (' ' :: '\'' :: m.reverse) := by
    apply afterLastOpen_append_some
    apply afterLastOpen_open
    intro hm
    simp only [List.mem_cons] at hm
    rcases hm with h | h | h
    · exact absurd h (by decide)
    · exact absurd h (by decide)
    · exact hmo (List.mem_reverse.mp h)
  simp only [stripTrailingParen, hrev, List.dropWhile_cons,
    show isSpaceChar ')' = false from by decide, Bool.false_eq_true, if_false,
    show ((')' : Char) == ')') = true from by decide, if_true,
    hseg, hopen, hdrop,
    show isSpaceChar ' ' = true from by decide,
    show isSpaceChar '\'' = false from by decide,
    List.append_nil, List.reverse_cons, List.reverse_reverse]

theorem strData_append (a b : String) : (a ++ b).data = a.data ++ b.data := rfl

theorem dropWhile_reverse_snoc (p : Char → Bool) (x : List Char) (c : Char)
    (hc : p c = false) :
    (x ++ [c]).reverse.dropWhile p = (x ++ [c]).reverse := by
  simp [List.reverse_append, List.dropWhile_cons, hc]

theorem stripTrailingParen_snoc (x : List Char) (c : Char)
    (hsp : isSpaceChar c = false) (hpar : (c == ')') = false) :
    stripTrailingParen (x ++ [c]) = x ++ [c] := by
  apply stripTrailingParen_eq_self _ c x.reverse _ hsp hpar
  simp [List.reverse_append]

/-! ### The codec round-trips on the strings the tools emit -/

theorem parse_stagedMove (s d : String) (hs : '\'' ∉ s.data) (hd : '\'' ∉ d.data) :
    parse_staged_action (stagedMoveAction s d) =
      some ⟨"move_file", [("source", s), ("destination", d)]⟩ := by
  have hdata : (stagedMoveAction s d).data =
      "STAGED_ACTION: move_file -> source='".data ++
        (s.data ++ ("', destination='".data ++ (d.data ++ ['\'']))) := by
    simp only [stagedMoveAction, strData_append, List.append_assoc]
  rw [parse_staged_action, hdata]
  have hmark : isPrefixList ("STAGED_ACTION:".data)
      ("STAGED_ACTION: move_file -> source='".data ++
        (s.data ++ ("', destination='".data ++ (d.data ++ ['\''])))) = true :=
    isPrefixList_append_of _ _ _ (by decide)
  have hdrop : (("STAGED_ACTION: move_file -> source='".data ++
      (s.data ++ ("', destination='".data ++ (d.data ++ ['\''])))).drop 14) =
      " move_file -> source='".data ++
        (s.data ++ ("', destination='".data ++ (d.data ++ ['\'']))) := rfl
  have hrevdw : ("move_file -> source='".data ++
      (s.data ++ ("', destination='".data ++ (d.data ++ ['\''])))).reverse.dropWhile
        isSpaceChar =
      ("move_file -> source='".data ++
        (s.data ++ ("', destination='".data ++ (d.data ++ ['\''])))).reverse := by
    have h2 := dropWhile_reverse_snoc isSpaceChar
      ("move_file -> source='".data ++ (s.data ++ ("', destination='".data ++ d.data)))
      '\'' (by decide)
    simpa only [List.append_assoc] using h2
  have htrim : trimChars (" move_file -> source='".data ++
      (s.data ++ ("', destination='".data ++ (d.data ++ ['\''])))) =
      "move_file -> source='".data ++
        (s.data ++ ("', destination='".data ++ (d.data ++ ['\'']))) := by
    rw [trimChars_eq_dropWhile]
    · rfl
    · exact hrevdw
  have hsplit : splitFirst (" -> ".data)
      ("move_file -> source='".data ++
        (s.data ++ ("', destination='".data ++ (d.data ++ ['\''])))) =
      some ("move_file".data,
        "source='".data ++ (s.data ++ ("', destination='".data ++ (d.data ++ ['\''])))) :=
    rfl
  have hrevdw2 : ("source='".data ++
      (s.data ++ ("', destination='".data ++ (d.data ++ ['\''])))).reverse.dropWhile
        isSpaceChar =
      ("source='".data ++
        (s.data ++ ("', destination='".data ++ (d.data ++ ['\''])))).reverse := by
    have h2 := dropWhile_reverse_snoc isSpaceChar
      ("source='".data ++ (s.data ++ ("', destination='".data ++ d.data)))
      '\'' (by decide)
    simpa only [List.append_assoc] using h2
  have htrim2 : trimChars ("source='".data ++
      (s.data ++ ("', destination='".data ++ (d.data ++ ['\''])))) =
      "source='".data ++ (s.data ++ ("', destination='".data ++ (d.data ++ ['\'']))) := by
    rw [trimChars_eq_dropWhile]
    · rfl
    · exact hrevdw2
  have hstrip : stripTrailingParen ("source='".data ++
      (s.data ++ ("', destination='".data ++ (d.data ++ ['\''])))) =
      "source='".data ++ (s.data ++ ("', destination='".data ++ (d.data ++ ['\'']))) := by
    have h2 := stripTrailingParen_snoc
      ("source='".data ++ (s.data ++ ("', destination='".data ++ d.data)))
      '\'' (by decide) (by decide)
    simpa only [List.append_assoc] using h2
  have h1 : matchAt ("source".data ++ '=' :: '\'' ::
      (s.data ++ '\'' :: (',' :: ' ' :: ("destination".data ++ '=' :: '\'' ::
        (d.data ++ '\'' :: []))))) =
      some (⟨"source".data⟩, ⟨s.data⟩,
        ',' :: ' ' :: ("destination".data ++ '=' :: '\'' :: (d.data ++ '\'' :: []))) :=
    matchAt_keyval _ _ _ _ (by decide) (by decide) (Or.inl rfl) hs
  have h2 : matchAt ("destination".data ++ '=' :: '\'' :: (d.data ++ '\'' :: [])) =
      some (⟨"destination".data⟩, ⟨d.data⟩, []) :=
    matchAt_keyval _ _ _ _ (by decide) (by decide) (Or.inl rfl) hd
  have hscan : scanPairs ("source='".data ++
      (s.data ++ ("', destination='".data ++ (d.data ++ ['\''])))) =
      [("source", s), ("destination", d)] := by
    calc scanPairs ("source='".data ++
        (s.data ++ ("', destination='".data ++ (d.data ++ ['\''])))) =
        scanPairs ("source".data ++ '=' :: '\'' ::
          (s.data ++ '\'' :: (',' :: ' ' :: ("destination".data ++ '=' :: '\'' ::
            (d.data ++ '\'' :: []))))) := rfl
      _ = ("source", s) :: scanPairs
            (',' :: ' ' :: ("destination".data ++ '=' :: '\'' :: (d.data ++ '\'' :: []))) :=
          scanPairs_match _ _ _ _ h1
      _ = ("source", s) :: scanPairs
            (' ' :: ("destination".data ++ '=' :: '\'' :: (d.data ++ '\'' :: []))) := by
          rw [scanPairs_skip _ _ (matchAt_not_word _ _ (by decide))]
      _ = ("source", s) :: scanPairs
            ("destination".data ++ '=' :: '\'' :: (d.data ++ '\'' :: [])) := by
          rw [scanPairs_skip _ _ (matchAt_not_word _ _ (by decide))]
      _ = [("source", s), ("destination", d)] := by
          rw [scanPairs_match _ _ _ _ h2, scanPairs_nil]
  simp only [parseCore, hmark, if_true, hdrop, htrim, hsplit, htrim2, hstrip, hscan,
    List.foldl_cons, List.foldl_nil]
  simp only [dictInsert, List.any_nil, List.any_cons, Bool.or_false,
    show (("source" : String) == "destination") = false from by decide,
    Bool.false_eq_true, if_false, List.nil_append, List.isEmpty_cons]
  rfl

theorem parse_stagedRename (o n : String) (ho : '\'' ∉ o.data) (hn : '\'' ∉ n.data) :
    parse_staged_action (stagedRenameAction o n) =
      some ⟨"rename_file", [("old_path", o), ("new_path", n)]⟩ := by
  have hdata : (stagedRenameAction o n).data =
      "STAGED_ACTION: rename_file -> old_path='".data ++
        (o.data ++ ("', new_path='".data ++ (n.data ++ ['\'']))) := by
    simp only [stagedRenameAction, strData_append, List.append_assoc]
  rw [parse_staged_action, hdata]
  have hmark : isPrefixList ("STAGED_ACTION:".data)
      ("STAGED_ACTION: rename_file -> old_path='".data ++
        (o.data ++ ("', new_path='".data ++ (n.data ++ ['\''])))) = true :=
    isPrefixList_append_of _ _ _ (by decide)
  have hdrop : (("STAGED_ACTION: rename_file -> old_path='".data ++
      (o.data ++ ("', new_path='".data ++ (n.data ++ ['\''])))).drop 14) =
      " rename_file -> old_path='".data ++
        (o.data ++ ("', new_path='".data ++ (n.data ++ ['\'']))) := rfl
  have hrevdw : ("rename_file -> old_path='".data ++
      (o.data ++ ("', new_path='".data ++ (n.data ++ ['\''])))).reverse.dropWhile
        isSpaceChar =
      ("rename_file -> old_path='".data ++
        (o.data ++ ("', new_path='".data ++ (n.data ++ ['\''])))).reverse := by
    have h2 := dropWhile_reverse_snoc isSpaceChar
      ("rename_file -> old_path='".data ++ (o.data ++ ("', new_path='".data ++ n.data)))
      '\'' (by decide)
    simpa only [List.append_assoc] using h2
  have htrim : trimChars (" rename_file -> old_path='".data ++
      (o.data ++ ("', new_path='".data ++ (n.data ++ ['\''])))) =
      "rename_file -> old_path='".data ++
        (o.data ++ ("', new_path='".data ++ (n.data ++ ['\'']))) := by
    rw [trimChars_eq_dropWhile]
    · rfl
    · exact hrevdw
  have hsplit : splitFirst (" -> ".data)
      ("rename_file -> old_path='".data ++
        (o.data ++ ("', new_path='".data ++ (n.data ++ ['\''])))) =
      some ("rename_file".data,
        "old_path='".data ++ (o.data ++ ("', new_path='".data ++ (n.data ++ ['\''])))) :=
    rfl
  have hrevdw2 : ("old_path='".data ++
      (o.data ++ ("', new_path='".data ++ (n.data ++ ['\''])))).reverse.dropWhile
        isSpaceChar =
      ("old_path='".data ++
        (o.data ++ ("', new_path='".data ++ (n.data ++ ['\''])))).reverse := by
    have h2 := dropWhile_reverse_snoc isSpaceChar
      ("old_path='".data ++ (o.data ++ ("', new_path='".data ++ n.data)))
      '\'' (by decide)
    simpa only [List.append_assoc] using h2
  have htrim2 : trimChars ("old_path='".data ++
      (o.data ++ ("', new_path='".data ++ (n.data ++ ['\''])))) =
      "old_path='".data ++ (o.data ++ ("', new_path='".data ++ (n.data ++ ['\'']))) := by
    rw [trimChars_eq_dropWhile]
    · rfl
    · exact hrevdw2
  have hstrip : stripTrailingParen ("old_path='".data ++
      (o.data ++ ("', new_path='".data ++ (n.data ++ ['\''])))) =
      "old_path='".data ++ (o.data ++ ("', new_path='".data ++ (n.data ++ ['\'']))) := by
    have h2 := stripTrailingParen_snoc
      ("old_path='".data ++ (o.data ++ ("', new_path='".data ++ n.data)))
      '\'' (by decide) (by decide)
    simpa only [List.append_assoc] using h2
  have h1 : matchAt ("old_path".data ++ '=' :: '\'' ::
      (o.data ++ '\'' :: (',' :: ' ' :: ("new_path".data ++ '=' :: '\'' ::
        (n.data ++ '\'' :: []))))) =
      some (⟨"old_path".data⟩, ⟨o.data⟩,
        ',' :: ' ' :: ("new_path".data ++ '=' :: '\'' :: (n.data ++ '\'' :: []))) :=
    matchAt_keyval _ _ _ _ (by decide) (by decide) (Or.inl rfl) ho
  have h2 : matchAt ("new_path".data ++ '=' :: '\'' :: (n.data ++ '\'' :: [])) =
      some (⟨"new_path".data⟩, ⟨n.data⟩, []) :=
    matchAt_keyval _ _ _ _ (by decide) (by decide) (Or.inl rfl) hn
  have hscan : scanPairs ("old_path='".data ++
      (o.data ++ ("', new_path='".data ++ (n.data ++ ['\''])))) =
      [("old_path", o), ("new_path", n)] := by
    calc scanPairs ("old_path='".data ++
        (o.data ++ ("', new_path='".data ++ (n.data ++ ['\''])))) =
        scanPairs ("old_path".data ++ '=' :: '\'' ::
          (o.data ++ '\'' :: (',' :: ' ' :: ("new_path".data ++ '=' :: '\'' ::
            (n.data ++ '\'' :: []))))) := rfl
      _ = ("old_path", o) :: scanPairs
            (',' :: ' ' :: ("new_path".data ++ '=' :: '\'' :: (n.data ++ '\'' :: []))) :=
          scanPairs_match _ _ _ _ h1
      _ = ("old_path", o) :: scanPairs
            (' ' :: ("new_path".data ++ '=' :: '\'' :: (n.data ++ '\'' :: []))) := by
          rw [scanPairs_skip _ _ (matchAt_not_word _ _ (by decide))]
      _ = ("old_path", o) :: scanPairs
            ("new_path".data ++ '=' :: '\'' :: (n.data ++ '\'' :: [])) := by
          rw [scanPairs_skip _ _ (matchAt_not_word _ _ (by decide))]
      _ = [("old_path", o), ("new_path", n)] := by
          rw [scanPairs_match _ _ _ _ h2, scanPairs_nil]
  simp only [parseCore, hmark, if_true, hdrop, htrim, hsplit, htrim2, hstrip, hscan,
    List.foldl_cons, List.foldl_nil]
  simp only [dictInsert, List.any_nil, List.any_cons, Bool.or_false,
    show (("old_path" : String) == "new_path") = false from by decide,
    Bool.false_eq_true, if_false, List.nil_append, List.isEmpty_cons]
  rfl

theorem parse_stagedCreate_plain (fp : String) (hfp : '\'' ∉ fp.data) :
    parse_staged_action (stagedCreateAction fp false) =
      some ⟨"create_folder", [("folder_path", fp)]⟩ := by
  have hdata : (stagedCreateAction fp false).data =
      "STAGED_ACTION: create_folder -> folder_path='".data ++ (fp.data ++ ['\'']) := by
    simp only [stagedCreateAction, Bool.false_eq_true, if_false, strData_append,
      List.append_assoc]
  rw [parse_staged_action, hdata]
  have hmark : isPrefixList ("STAGED_ACTION:".data)
      ("STAGED_ACTION: create_folder -> folder_path='".data ++ (fp.data ++ ['\''])) =
      true :=
    isPrefixList_append_of _ _ _ (by decide)
  have hdrop : (("STAGED_ACTION: create_folder -> folder_path='".data ++
      (fp.data ++ ['\''])).drop 14) =
      " create_folder -> folder_path='".data ++ (fp.data ++ ['\'']) := rfl
  have hrevdw : ("create_folder -> folder_path='".data ++
      (fp.data ++ ['\''])).reverse.dropWhile isSpaceChar =
      ("create_folder -> folder_path='".data ++ (fp.data ++ ['\''])).reverse := by
    have h2 := dropWhile_reverse_snoc isSpaceChar
      ("create_folder -> folder_path='".data ++ fp.data) '\'' (by decide)
    simpa only [List.append_assoc] using h2
  have htrim : trimChars (" create_folder -> folder_path='".data ++
      (fp.data ++ ['\''])) =
      "create_folder -> folder_path='".data ++ (fp.data ++ ['\'']) := by
    rw [trimChars_eq_dropWhile]
    · rfl
    · exact hrevdw
  have hsplit : splitFirst (" -> ".data)
      ("create_folder -> folder_path='".data ++ (fp.data ++ ['\''])) =
      some ("create_folder".data, "folder_path='".data ++ (fp.data ++ ['\''])) := rfl
  have hrevdw2 : ("folder_path='".data ++
      (fp.data ++ ['\''])).reverse.dropWhile isSpaceChar =
      ("folder_path='".data ++ (fp.data ++ ['\''])).reverse := by
    have h2 := dropWhile_reverse_snoc isSpaceChar
      ("folder_path='".data ++ fp.data) '\'' (by decide)
    simpa only [List.append_assoc] using h2
  have htrim2 : trimChars ("folder_path='".data ++ (fp.data ++ ['\''])) =
      "folder_path='".data ++ (fp.data ++ ['\'']) := by
    rw [trimChars_eq_dropWhile]
    · rfl
    · exact hrevdw2
  have hstrip : stripTrailingParen ("folder_path='".data ++ (fp.data ++ ['\''])) =
      "folder_path='".data ++ (fp.data ++ ['\'']) := by
    have h2 := stripTrailingParen_snoc ("folder_path='".data ++ fp.data)
      '\'' (by decide) (by decide)
    simpa only [List.append_assoc] using h2
  have h1 : matchAt ("folder_path".data ++ '=' :: '\'' :: (fp.data ++ '\'' :: [])) =
      some (⟨"folder_path".data⟩, ⟨fp.data⟩, []) :=
    matchAt_keyval _ _ _ _ (by decide) (by decide) (Or.inl rfl) hfp
  have hscan : scanPairs ("folder_path='".data ++ (fp.data ++ ['\''])) =
      [("folder_path", fp)] := by
    calc scanPairs ("folder_path='".data ++ (fp.data ++ ['\''])) =
        scanPairs ("folder_path".data ++ '=' :: '\'' :: (fp.data ++ '\'' :: [])) := rfl
      _ = [("folder_path", fp)] := by
          rw [scanPairs_match _ _ _ _ h1, scanPairs_nil]
  simp only [parseCore, hmark, if_true, hdrop, htrim, hsplit, htrim2, hstrip, hscan,
    List.foldl_cons, List.foldl_nil]
  simp only [dictInsert, List.any_nil, Bool.false_eq_true, if_false,
    List.nil_append, List.isEmpty_cons]
  rfl

theorem parse_stagedCreate_note (fp : String) (hfp : '\'' ∉ fp.data)
    (hfpo : '(' ∉ fp.data) (hfpc : ')' ∉ fp.data) :
    parse_staged_action (stagedCreateAction fp true) =
      some ⟨"create_folder", [("folder_path", fp)]⟩ := by
  have hdata : (stagedCreateAction fp true).data =
      "STAGED_ACTION: create_folder -> folder_path='".data ++
        (fp.data ++ ('\'' :: (" (will create parent directories)".data))) := by
    simp only [stagedCreateAction, if_true, strData_append, List.append_assoc]
  rw [parse_staged_action, hdata]
  have hmark : isPrefixList ("STAGED_ACTION:".data)
      ("STAGED_ACTION: create_folder -> folder_path='".data ++
        (fp.data ++ ('\'' :: (" (will create parent directories)".data)))) = true :=
    isPrefixList_append_of _ _ _ (by decide)
  have hdrop : (("STAGED_ACTION: create_folder -> folder_path='".data ++
      (fp.data ++ ('\'' :: (" (will create parent directories)".data)))).drop 14) =
      " create_folder -> folder_path='".data ++
        (fp.data ++ ('\'' :: (" (will create parent directories)".data))) := rfl
  have hnote : ('\'' :: (" (will create parent directories)".data)) =
      "' (will create parent directories".data ++ [')'] := by decide
  have hrevdw : ("create_folder -> folder_path='".data ++
      (fp.data ++ ('\'' :: (" (will create parent directories)".data)))).reverse.dropWhile
        isSpaceChar =
      ("create_folder -> folder_path='".data ++
        (fp.data ++ ('\'' :: (" (will create parent directories)".data)))).reverse := by
    rw [hnote]
    have h2 := dropWhile_reverse_snoc isSpaceChar
      ("create_folder -> folder_path='".data ++
        (fp.data ++ "' (will create parent directories".data)) ')' (by decide)
    simpa only [List.append_assoc] using h2
  have htrim : trimChars (" create_folder -> folder_path='".data ++
      (fp.data ++ ('\'' :: (" (will create parent directories)".data)))) =
      "create_folder -> folder_path='".data ++
        (fp.data ++ ('\'' :: (" (will create parent directories)".data))) := by
    rw [trimChars_eq_dropWhile]
    · rfl
    · exact hrevdw
  have hsplit : splitFirst (" -> ".data)
      ("create_folder -> folder_path='".data ++
        (fp.data ++ ('\'' :: (" (will create parent directories)".data)))) =
      some ("create_folder".data,
        "folder_path='".data ++
          (fp.data ++ ('\'' :: (" (will create parent directories)".data)))) := rfl
  have hrevdw2 : ("folder_path='".data ++
      (fp.data ++ ('\'' :: (" (will create parent directories)".data)))).reverse.dropWhile
        isSpaceChar =
      ("folder_path='".data ++
        (fp.data ++ ('\'' :: (" (will create parent directories)".data)))).reverse := by
    rw [hnote]
    have h2 := dropWhile_reverse_snoc isSpaceChar
      ("folder_path='".data ++ (fp.data ++ "' (will create parent directories".data))
      ')' (by decide)
    simpa only [List.append_assoc] using h2
  have htrim2 : trimChars ("folder_path='".data ++
      (fp.data ++ ('\'' :: (" (will create parent directories)".data)))) =
      "folder_path='".data ++
        (fp.data ++ ('\'' :: (" (will create parent directories)".data))) := by
    rw [trimChars_eq_dropWhile]
    · rfl
    · exact hrevdw2
  have hmo : '(' ∉ ("folder_path='".data ++ fp.data) := by
    intro hm
    rcases List.mem_append.mp hm with h | h
    · exact absurd h (by decide)
    · exact hfpo h
  have hmc : ')' ∉ ("folder_path='".data ++ fp.data) := by
    intro hm
    rcases List.mem_append.mp hm with h | h
    · exact absurd h (by decide)
    · exact hfpc h
  have hstrip : stripTrailingParen ("folder_path='".data ++
      (fp.data ++ ('\'' :: (" (will create parent directories)".data)))) =
      "folder_path='".data ++ (fp.data ++ ['\'']) := by
    have h2 := stripTrailingParen_note ("folder_path='".data ++ fp.data) hmo hmc
    simpa only [List.append_assoc] using h2
  have h1 : matchAt ("folder_path".data ++ '=' :: '\'' :: (fp.data ++ '\'' :: [])) =
      some (⟨"folder_path".data⟩, ⟨fp.data⟩, []) :=
    matchAt_keyval _ _ _ _ (by decide) (by decide) (Or.inl rfl) hfp
  have hscan : scanPairs ("folder_path='".data ++ (fp.data ++ ['\''])) =
      [("folder_path", fp)] := by
    calc scanPairs ("folder_path='".data ++ (fp.data ++ ['\''])) =
        scanPairs ("folder_path".data ++ '=' :: '\'' :: (fp.data ++ '\'' :: [])) := rfl
      _ = [("folder_path", fp)] := by
          rw [scanPairs_match _ _ _ _ h1, scanPairs_nil]
  simp only [parseCore, hmark, if_true, hdrop, htrim, hsplit, htrim2, hstrip, hscan,
    List.foldl_cons, List.foldl_nil]
  simp only [dictInsert, List.any_nil, Bool.false_eq_true, if_false,
    List.nil_append, List.isEmpty_cons]
  rfl

/-! ### Shape lemmas for the authorizer and result strings -/

theorem strAppend_assoc (a b c : String) : (a ++ b) ++ c = a ++ (b ++ c) := by
  cases a with
  | mk la =>
    cases b with
    | mk lb =>
      cases c with
      | mk lc =>
        show String.mk ((la ++ lb) ++ lc) = String.mk (la ++ (lb ++ lc))
        rw [List.append_assoc]

theorem strStarts_append_right (pre lit rest : String)
    (h : strStarts pre lit = true) : strStarts pre (lit ++ rest) = true := by
  simp only [strStarts, strData_append] at h ⊢
  exact isPrefixList_append_of _ _ _ h

theorem auth_cases (env : Env) (p : String) :
    is_path_authorized env p = (true, some (authPath env p), none) ∨
    ∃ m, is_path_authorized env p = (false, none, some m) ∧
      strStarts "Error" m = true := by
  simp only [is_path_authorized]
  split_ifs with h1 h2 h3 h4
  · exact Or.inr ⟨_, rfl, by decide⟩
  · exact Or.inr ⟨_, rfl, by decide⟩
  · exact Or.inr ⟨_, rfl, by decide⟩
  · exact Or.inl rfl
  · exact Or.inr ⟨_, rfl, by decide⟩

theorem auth_true_elim (env : Env) (p : String)
    (h : (is_path_authorized env p).1 = true) :
    is_path_authorized env p = (true, some (authPath env p), none) := by
  rcases auth_cases env p with hA | ⟨m, hA, _⟩
  · exact hA
  · rw [hA] at h; simp at h

/-! ### Frame and result classification of the staging branches -/

theorem create_folder_staging (env : Env) (fs : FS) (p : String) :
    (create_folder env fs p false).1 = fs ∧
    (strStarts "Error" (create_folder env fs p false).2 = true ∨
      strStarts "STAGED_ACTION:" (create_folder env fs p false).2 = true ∨
      (create_folder env fs p false).2 = "Folder already exists: \"" ++ p ++ "\"") := by
  rcases auth_cases env p with hA | ⟨m, hA, hm⟩
  · simp only [create_folder, hA, Option.getD_some]
    by_cases hex : fs.pathExists (authPath env p) = true
    · simp only [hex, if_true]
      by_cases hdir : fs.isdir (authPath env p) = true
      · simp only [hdir, if_true]
        exact ⟨by trivial, Or.inr (Or.inr (by trivial))⟩
      · simp only [Bool.not_eq_true] at hdir
        simp only [hdir, Bool.false_eq_true, if_false]
        refine ⟨by trivial, Or.inl ?_⟩
        rw [strAppend_assoc]
        exact strStarts_append_right _ _ _ (by decide)
    · simp only [Bool.not_eq_true] at hex
      simp only [hex, Bool.false_eq_true, if_false, Bool.not_false, if_true]
      refine ⟨by trivial, Or.inr (Or.inl ?_)⟩
      by_cases hw : fs.pathExists (dirname (authPath env p)) = true
      · simp only [stagedCreateAction, hw, Bool.not_true, Bool.false_eq_true, if_false]
        rw [strAppend_assoc]
        exact strStarts_append_right _ _ _ (by decide)
      · simp only [Bool.not_eq_true] at hw
        simp only [stagedCreateAction, hw, Bool.not_false, if_true]
        rw [strAppend_assoc]
        exact strStarts_append_right _ _ _ (by decide)
  · simp only [create_folder, hA, Option.getD_some]
    exact ⟨by trivial, Or.inl hm⟩

theorem move_file_staging (env : Env) (fs : FS) (s d : String) :
    (move_file env fs s d false).1 = fs ∧
    (strStarts "Error" (move_file env fs s d false).2 = true ∨
      strStarts "STAGED_ACTION:" (move_file env fs s d false).2 = true) := by
  rcases auth_cases env s with hA | ⟨m, hA, hm⟩
  · rcases auth_cases env d with hB | ⟨m2, hB, hm2⟩
    · simp only [move_file, hA, hB, Option.getD_some]
      by_cases hex : fs.pathExists (authPath env s) = true
      · simp only [hex, Bool.not_true, Bool.false_eq_true, if_false, Bool.not_false,
          if_true]
        refine ⟨by trivial, Or.inr ?_⟩
        simp only [stagedMoveAction]
        rw [strAppend_assoc, strAppend_assoc, strAppend_assoc]
        exact strStarts_append_right _ _ _ (by decide)
      · simp only [Bool.not_eq_true] at hex
        simp only [hex, Bool.not_false, if_true]
        refine ⟨by trivial, Or.inl ?_⟩
        rw [strAppend_assoc]
        exact strStarts_append_right _ _ _ (by decide)
    · simp only [move_file, hA, hB, Option.getD_some]
      exact ⟨by trivial, Or.inl hm2⟩
  · simp only [move_file, hA, Option.getD_some]
    exact ⟨by trivial, Or.inl hm⟩

theorem rename_file_staging (env : Env) (fs : FS) (o n : String) :
    (rename_file env fs o n false).1 = fs ∧
    (strStarts "Error" (rename_file env fs o n false).2 = true ∨
      strStarts "STAGED_ACTION:" (rename_file env fs o n false).2 = true) := by
  rcases auth_cases env o with hA | ⟨m, hA, hm⟩
  · rcases auth_cases env n with hB | ⟨m2, hB, hm2⟩
    · simp only [rename_file, hA, hB, Option.getD_some]
      by_cases hex : fs.pathExists (authPath env o) = true
      · simp only [hex, Bool.not_true, Bool.false_eq_true, if_false]
        by_cases hnew : fs.pathExists (authPath env n) = true
        · simp only [hnew, if_true]
          refine ⟨by trivial, Or.inl ?_⟩
          rw [strAppend_assoc]
          exact strStarts_append_right _ _ _ (by decide)
        · simp only [Bool.not_eq_true] at hnew
          simp only [hnew, Bool.false_eq_true, if_false, Bool.not_false, if_true]
          refine ⟨by trivial, Or.inr ?_⟩
          simp only [stagedRenameAction]
          rw [strAppend_assoc, strAppend_assoc, strAppend_assoc]
          exact strStarts_append_right _ _ _ (by decide)
      · simp only [Bool.not_eq_true] at hex
        simp only [hex, Bool.not_false, if_true]
        refine ⟨by trivial, Or.inl ?_⟩
        rw [strAppend_assoc]
        exact strStarts_append_right _ _ _ (by decide)
    · simp only [rename_file, hA, hB, Option.getD_some]
      exact ⟨by trivial, Or.inl hm2⟩
  · simp only [rename_file, hA, Option.getD_some]
    exact ⟨by trivial, Or.inl hm⟩

/-! ### Path-component lemmas: canonical paths split back into their
components, so the `commonpath` containment check is component-wise -/

theorem splitSlash_ne_nil : ∀ cs : List Char, splitSlash cs ≠ [] := by
  intro cs
  induction cs with
  | nil => simp [splitSlash]
  | cons c tl ih =>
    simp only [splitSlash]
    by_cases hc : (c == '/') = true
    · simp [hc]
    · simp only [Bool.not_eq_true] at hc
      simp only [hc, Bool.false_eq_true, if_false]
      cases h : splitSlash tl with
      | nil => exact absurd h ih
      | cons a b => simp

theorem splitSlash_no_slash : ∀ (cs : List Char), ∀ x ∈ splitSlash cs, '/' ∉ x := by
  intro cs
  induction cs with
  | nil =>
    intro x hx
    simp only [splitSlash, List.mem_singleton] at hx
    simp [hx]
  | cons c tl ih =>
    intro x hx
    simp only [splitSlash] at hx
    by_cases hc : (c == '/') = true
    · simp only [hc, if_true, List.mem_cons] at hx
      rcases hx with h | h
      · simp [h]
      · exact ih x h
    · simp only [Bool.not_eq_true] at hc
      simp only [hc, Bool.false_eq_true, if_false] at hx
      cases hs : splitSlash tl with
      | nil => exact absurd hs (splitSlash_ne_nil tl)
      | cons a b =>
        rw [hs] at hx
        simp only [List.mem_cons] at hx
        rcases hx with h | h
        · subst h
          intro hmem
          simp only [List.mem_cons] at hmem
          rcases hmem with h | h
          · rw [h] at hc; simp at hc
          · exact ih a (by simp [hs]) h
        · exact ih x (by simp [hs, h])

theorem splitSlash_single : ∀ (x : List Char), '/' ∉ x → splitSlash x = [x] := by
  intro x
  induction x with
  | nil => intro _; rfl
  | cons c tl ih =>
    intro h
    have hc : (c == '/') = false := by
      simp only [beq_eq_false_iff_ne]
      intro hce; exact h (by simp [hce])
    simp only [splitSlash, hc, Bool.false_eq_true, if_false,
      ih (fun hm => h (by simp [hm]))]

theorem splitSlash_append_slash :
    ∀ (x rest : List Char), '/' ∉ x →
      splitSlash (x ++ '/' :: rest) = x :: splitSlash rest := by
  intro x
  induction x with
  | nil =>
    intro rest _
    simp [splitSlash]
  | cons c tl ih =>
    intro rest h
    have hc : (c == '/') = false := by
      simp only [beq_eq_false_iff_ne]
      intro hce; exact h (by simp [hce])
    simp only [List.cons_append, splitSlash, hc, Bool.false_eq_true, if_false,
      List.append_eq, ih rest (fun hm => h (by simp [hm]))]

theorem splitSlash_joinSlash :
    ∀ L : List (List Char), (∀ x ∈ L, '/' ∉ x) → L ≠ [] →
      splitSlash (joinSlash L) = L := by
  intro L
  induction L with
  | nil => intro _ h; exact absurd rfl h
  | cons x t ih =>
    intro hL _
    cases t with
    | nil => exact splitSlash_single x (hL x (by simp))
    | cons y t2 =>
      show splitSlash (x ++ '/' :: joinSlash (y :: t2)) = x :: y :: t2
      rw [splitSlash_append_slash x _ (hL x (by simp))]
      rw [ih (fun z hz => hL z (by simp [hz])) (by simp)]

theorem comps_mk (L : List (List Char))
    (hL : ∀ x ∈ L, '/' ∉ x ∧ (!x.isEmpty && x != ['.']) = true) :
    comps ('/' :: joinSlash L) = L := by
  cases L with
  | nil => rfl
  | cons a t =>
    show (splitSlash ('/' :: joinSlash (a :: t))).filter _ = a :: t
    have h1 : splitSlash ('/' :: joinSlash (a :: t)) = [] :: a :: t := by
      simp only [splitSlash, show (('/' : Char) == '/') = true from rfl, if_true]
      rw [splitSlash_joinSlash (a :: t) (fun x hx => (hL x hx).1) (by simp)]
    rw [h1, List.filter_cons]
    simp only [show ((!List.isEmpty ([] : List Char) && ([] : List Char) != ['.'])) =
      false from rfl, Bool.false_eq_true, if_false]
    exact List.filter_eq_self.mpr (fun x hx => (hL x hx).2)

theorem resolveComps_mem :
    ∀ (l acc : List (List Char)) x, x ∈ resolveComps acc l →
      x ∈ acc ∨ (x ∈ l ∧ x.isEmpty = false ∧ x ≠ ['.']) := by
  intro l
  induction l with
  | nil =>
    intro acc x hx
    exact Or.inl hx
  | cons c rest ih =>
    intro acc x hx
    simp only [resolveComps] at hx
    by_cases h1 : (c.isEmpty || c == ['.']) = true
    · simp only [h1, if_true] at hx
      rcases ih acc x hx with h | ⟨hm, h2, h3⟩
      · exact Or.inl h
      · exact Or.inr ⟨by simp [hm], h2, h3⟩
    · simp only [Bool.not_eq_true] at h1
      simp only [h1, Bool.false_eq_true, if_false] at hx
      by_cases h2 : (c == ['.', '.']) = true
      · simp only [h2, if_true] at hx
        rcases ih _ x hx with h | ⟨hm, h3, h4⟩
        · exact Or.inl (List.mem_of_mem_dropLast h)
        · exact Or.inr ⟨by simp [hm], h3, h4⟩
      · simp only [Bool.not_eq_true] at h2
        simp only [h2, Bool.false_eq_true, if_false] at hx
        rcases ih _ x hx with h | ⟨hm, h3, h4⟩
        · rcases List.mem_append.mp h with h | h
          · exact Or.inl h
          · simp only [List.mem_singleton] at h
            subst h
            simp only [Bool.or_eq_false_iff] at h1
            refine Or.inr ⟨by simp, h1.1, ?_⟩
            simpa [beq_eq_false_iff_ne] using h1.2
        · exact Or.inr ⟨by simp [hm], h3, h4⟩

theorem comps_resolveAbs (p : String) :
    comps ((resolveAbs p).data) = resolveComps [] (splitSlash p.data) := by
  apply comps_mk
  intro x hx
  rcases resolveComps_mem _ _ x hx with h | ⟨hmem, h1, h2⟩
  · simp at h
  · refine ⟨splitSlash_no_slash p.data x hmem, ?_⟩
    simp [h1, h2]

theorem commonPrefixSeq_of_head :
    ∀ (a b : List (List Char)), isHeadSeq a b = true → commonPrefixSeq a b = a := by
  intro a
  induction a with
  | nil =>
    intro b _
    cases b <;> rfl
  | cons x xs ih =>
    intro b h
    cases b with
    | nil => simp [isHeadSeq] at h
    | cons y ys =>
      simp only [isHeadSeq, Bool.and_eq_true] at h
      simp only [commonPrefixSeq, h.1, if_true, ih ys h.2]

theorem commonpath_eq_root (root q : String)
    (h : isHeadSeq (comps (resolveAbs root).data) (comps (resolveAbs q).data) = true) :
    commonpath (resolveAbs root) (resolveAbs q) = resolveAbs root := by
  show String.mk ('/' :: joinSlash (commonPrefixSeq (comps (resolveAbs root).data)
    (comps (resolveAbs q).data))) = resolveAbs root
  rw [commonPrefixSeq_of_head _ _ h, comps_resolveAbs]
  rfl

theorem joinSlash_ne_nil (L : List (List Char)) (hL : ∀ x ∈ L, x ≠ [])
    (h : L ≠ []) : joinSlash L ≠ [] := by
  cases L with
  | nil => exact absurd rfl h
  | cons x t =>
    cases t with
    | nil => exact hL x (by simp)
    | cons y t2 =>
      show x ++ '/' :: joinSlash (y :: t2) ≠ []
      simp

theorem joinSlash_inj (X Y : List (List Char))
    (hX : ∀ x ∈ X, '/' ∉ x) (hY : ∀ x ∈ Y, '/' ∉ x)
    (hXe : ∀ x ∈ X, x ≠ []) (hYe : ∀ x ∈ Y, x ≠ [])
    (h : joinSlash X = joinSlash Y) : X = Y := by
  cases hx : X with
  | nil =>
    cases hy : Y with
    | nil => rfl
    | cons y t =>
      subst hx hy
      have : joinSlash (y :: t) ≠ [] := joinSlash_ne_nil _ hYe (by simp)
      rw [← h] at this
      exact absurd rfl this
  | cons x t =>
    cases hy : Y with
    | nil =>
      subst hx hy
      have : joinSlash (x :: t) ≠ [] := joinSlash_ne_nil _ hXe (by simp)
      rw [h] at this
      exact absurd rfl this
    | cons y t2 =>
      subst hx hy
      have h1 := splitSlash_joinSlash (x :: t) hX (by simp)
      have h2 := splitSlash_joinSlash (y :: t2) hY (by simp)
      rw [← h1, ← h2, h]

theorem commonPrefixSeq_mem :
    ∀ (a b : List (List Char)) x, x ∈ commonPrefixSeq a b → x ∈ a := by
  intro a
  induction a with
  | nil =>
    intro b x hx
    cases b <;> simp [commonPrefixSeq] at hx
  | cons c cs ih =>
    intro b x hx
    cases b with
    | nil => simp [commonPrefixSeq] at hx
    | cons d ds =>
      simp only [commonPrefixSeq] at hx
      by_cases hcd : (c == d) = true
      · simp only [hcd, if_true, List.mem_cons] at hx
        rcases hx with h | h
        · simp [h]
        · simp [ih ds x h]
      · simp only [Bool.not_eq_true] at hcd
        simp [hcd] at hx

theorem commonPrefixSeq_eq_imp_head :
    ∀ (a b : List (List Char)), commonPrefixSeq a b = a → isHeadSeq a b = true := by
  intro a
  induction a with
  | nil => intro b _; cases b <;> rfl
  | cons c cs ih =>
    intro b h
    cases b with
    | nil => simp [commonPrefixSeq] at h
    | cons d ds =>
      simp only [commonPrefixSeq] at h
      by_cases hcd : (c == d) = true
      · simp only [hcd, if_true, List.cons.injEq] at h
        simp only [isHeadSeq, hcd, Bool.true_and]
        exact ih ds h.2
      · simp only [Bool.not_eq_true] at hcd
        simp [hcd] at h

theorem comps_resolveAbs_good (p : String) :
    ∀ x ∈ comps ((resolveAbs p).data), '/' ∉ x ∧ x ≠ [] := by
  intro x hx
  rw [comps_resolveAbs] at hx
  rcases resolveComps_mem _ _ x hx with h | ⟨hmem, h1, _⟩
  · simp at h
  · refine ⟨splitSlash_no_slash p.data x hmem, ?_⟩
    simpa [List.isEmpty_iff] using h1

theorem check_imp_head (root q : String)
    (h : (commonpath (resolveAbs root) (resolveAbs q) == resolveAbs root) = true) :
    isHeadSeq (comps (resolveAbs root).data) (comps (resolveAbs q).data) = true := by
  rw [beq_iff_eq] at h
  have hd : '/' :: joinSlash (commonPrefixSeq (comps (resolveAbs root).data)
      (comps (resolveAbs q).data)) = (resolveAbs root).data := congrArg String.data h
  have hd2 : (resolveAbs root).data = '/' :: joinSlash (comps (resolveAbs root).data) := by
    rw [comps_resolveAbs]
    rfl
  nth_rewrite 2 [hd2] at hd
  rw [List.cons.injEq] at hd
  apply commonPrefixSeq_eq_imp_head
  apply joinSlash_inj
  · intro x hx
    exact (comps_resolveAbs_good root x (commonPrefixSeq_mem _ _ x hx)).1
  · intro x hx
    exact (comps_resolveAbs_good root x hx).1
  · intro x hx
    exact (comps_resolveAbs_good root x (commonPrefixSeq_mem _ _ x hx)).2
  · intro x hx
    exact (comps_resolveAbs_good root x hx).2
  · exact hd.2

theorem auth_denied_outside (env : Env) (p : String)
    (hroots : env.allowed_roots ≠ []) (hp : p ≠ "")
    (habs : isAbsoluteChars (expanduser env.home p).data = true)
    (hd : (is_path_authorized env p).1 = false) :
    is_path_authorized env p = (false, none, some ACCESS_DENIED_ERROR) := by
  have h1 : (p == "") = false := beq_eq_false_iff_ne.mpr hp
  have h2 : env.allowed_roots.isEmpty = false := by
    simpa [List.isEmpty_iff] using hroots
  simp only [is_path_authorized, h1, Bool.false_eq_true, if_false, h2, habs,
    Bool.not_true] at hd ⊢
  by_cases hany : env.allowed_roots.any (fun root =>
      commonpath (resolveAbs root) (resolveAbs (expanduser env.home p)) ==
        resolveAbs root) = true
  · rw [hany] at hd
    simp at hd
  · simp only [Bool.not_eq_true] at hany
    rw [hany]
    simp

/-! ### Lemmas about `makedirs` -/

theorem lookup_insertDir_mono (fs : FS) (p q : String) (k : EntryKind)
    (h : fs.lookup q = some k) : (insertDir fs p).lookup q = some k := by
  simp only [FS.lookup, insertDir, List.find?_append]
  simp only [FS.lookup] at h
  cases hf : fs.entries.find? (fun e => e.1 == q) with
  | none => rw [hf] at h; simp at h
  | some e => rw [hf] at h; simp_all [Option.or]

theorem lookup_insertDir_self (fs : FS) (p : String)
    (h : fs.lookup p = none) : (insertDir fs p).lookup p = some EntryKind.dir := by
  simp only [FS.lookup, insertDir, List.find?_append]
  simp only [FS.lookup] at h
  cases hf : fs.entries.find? (fun e => e.1 == p) with
  | none => simp [Option.or, List.find?]
  | some e => rw [hf] at h; simp at h

theorem makedirsList_preserves :
    ∀ (l : List String) (fs fs2 : FS) (e : Option String) (q : String) (k : EntryKind),
      makedirsList fs l = (fs2, e) → fs.lookup q = some k → fs2.lookup q = some k := by
  intro l
  induction l with
  | nil =>
    intro fs fs2 e q k h hq
    simp only [makedirsList, Prod.mk.injEq] at h
    rw [← h.1]; exact hq
  | cons q0 qs ih =>
    intro fs fs2 e q k h hq
    simp only [makedirsList] at h
    cases h0 : fs.lookup q0 with
    | none =>
      rw [h0] at h
      exact ih _ _ _ _ _ h (lookup_insertDir_mono fs q0 q k hq)
    | some k0 =>
      cases k0 with
      | dir =>
        rw [h0] at h
        exact ih _ _ _ _ _ h hq
      | file =>
        rw [h0] at h
        simp only [Prod.mk.injEq] at h
        rw [← h.1]; exact hq

theorem makedirsList_makes :
    ∀ (l : List String) (fs fs2 : FS),
      makedirsList fs l = (fs2, none) → ∀ q ∈ l, fs2.lookup q = some EntryKind.dir := by
  intro l
  induction l with
  | nil => intro fs fs2 _ q hq; simp at hq
  | cons q0 qs ih =>
    intro fs fs2 h q hq
    simp only [makedirsList] at h
    rcases List.mem_cons.mp hq with hq0 | hqs
    · subst hq0
      cases h0 : fs.lookup q with
      | none =>
        rw [h0] at h
        exact makedirsList_preserves qs _ _ _ q EntryKind.dir h
          (lookup_insertDir_self fs q h0)
      | some k0 =>
        cases k0 with
        | dir =>
          rw [h0] at h
          exact makedirsList_preserves qs _ _ _ q EntryKind.dir h h0
        | file =>
          rw [h0] at h
          simp at h
    · cases h0 : fs.lookup q0 with
      | none =>
        rw [h0] at h
        exact ih _ _ h q hqs
      | some k0 =>
        cases k0 with
        | dir =>
          rw [h0] at h
          exact ih _ _ h q hqs
        | file =>
          rw [h0] at h
          simp at h

theorem mem_prefixPaths_self (r : String)
    (hr : r.data = '/' :: joinSlash (comps r.data))
    (hne : comps r.data ≠ []) : r ∈ prefixPaths r := by
  have hlen : 0 < (comps r.data).length := List.length_pos.mpr hne
  simp only [prefixPaths, List.mem_map]
  refine ⟨(comps r.data).length - 1, ?_, ?_⟩
  · simp only [List.mem_range]
    omega
  · have : (comps r.data).length - 1 + 1 = (comps r.data).length := by omega
    rw [this, List.take_length]
    cases r with
    | mk rd =>
      show String.mk ('/' :: joinSlash (comps rd)) = String.mk rd
      exact congrArg String.mk hr.symm

theorem makedirs_makes_target (fs fs2 : FS) (r : String)
    (hr : r.data = '/' :: joinSlash (comps r.data))
    (hne : comps r.data ≠ [])
    (h : makedirs fs r = (fs2, none)) : fs2.isdir r = true := by
  have := makedirsList_makes (prefixPaths r) fs fs2 h r (mem_prefixPaths_self r hr hne)
  simp [FS.isdir, this]

theorem pathExists_of_isdir (fs : FS) (p : String)
    (h : fs.isdir p = true) : fs.pathExists p = true := by
  simp only [FS.isdir, beq_iff_eq] at h
  simp [FS.pathExists, h]

/-! ### The claims -/

/-- C1 (amended): with the confirmation flag unset, each mutation tool
(`create_folder`, `move_file`, `rename_file`) leaves the filesystem exactly
as it was, for every environment, filesystem and argument strings; the
returned string is a denial/error string (prefixed `Error`), a
`STAGED_ACTION:` encoding, or — for `create_folder` on an already existing
directory only — the informational already-exists message. -/
theorem claim1_mutation_staging_frame (env : Env) (fs : FS) (p s d o n : String) :
    (create_folder env fs p false).1 = fs ∧
    (move_file env fs s d false).1 = fs ∧
    (rename_file env fs o n false).1 = fs ∧
    (strStarts "Error" (create_folder env fs p false).2 = true ∨
      strStarts "STAGED_ACTION:" (create_folder env fs p false).2 = true ∨
      (create_folder env fs p false).2 = "Folder already exists: \"" ++ p ++ "\"") ∧
    (strStarts "Error" (move_file env fs s d false).2 = true ∨
      strStarts "STAGED_ACTION:" (move_file env fs s d false).2 = true) ∧
    (strStarts "Error" (rename_file env fs o n false).2 = true ∨
      strStarts "STAGED_ACTION:" (rename_file env fs o n false).2 = true) :=
  ⟨(create_folder_staging env fs p).1, (move_file_staging env fs s d).1,
    (rename_file_staging env fs o n).1, (create_folder_staging env fs p).2,
    (move_file_staging env fs s d).2, (rename_file_staging env fs o n).2⟩

/-- C1 counterexample: an unconfirmed `create_folder` on a path that already
exists as a directory returns the informational already-exists message,
which is neither a denial/error string nor a `STAGED_ACTION` encoding, so
the claim's two-way classification of staging-mode results is false (the
no-mutation half holds). -/
theorem claim1_already_exists_counterexample :
    create_folder ⟨["/data"], "/home"⟩
        ⟨[("/data", EntryKind.dir), ("/data/x", EntryKind.dir)]⟩ "/data/x" false =
      (⟨[("/data", EntryKind.dir), ("/data/x", EntryKind.dir)]⟩,
        "Folder already exists: \"/data/x\"") ∧
    strStarts "Error"
      (create_folder ⟨["/data"], "/home"⟩
        ⟨[("/data", EntryKind.dir), ("/data/x", EntryKind.dir)]⟩ "/data/x" false).2 =
      false ∧
    strStarts "STAGED_ACTION:"
      (create_folder ⟨["/data"], "/home"⟩
        ⟨[("/data", EntryKind.dir), ("/data/x", EntryKind.dir)]⟩ "/data/x" false).2 =
      false := by
  decide

/-- C2: whitelist containment is decided component-wise.  If some root's
canonical components lead the canonical path's components the call is
authorized and returns the canonical path; if no root's components lead
them the call is denied with the uniform message — in particular the
string-prefix sibling `/data2/x` of root `/data` is denied. -/
theorem claim2_component_authorization (env : Env) (R p : String)
    (hR : R ∈ env.allowed_roots) (hp : p ≠ "")
    (habs : isAbsoluteChars (expanduser env.home p).data = true)
    (hdesc : isHeadSeq (comps ((resolveAbs R).data)) (comps ((authPath env p).data)) =
      true) :
    is_path_authorized env p = (true, some (authPath env p), none) ∧
    (∀ q : String, q ≠ "" → isAbsoluteChars (expanduser env.home q).data = true →
      (∀ root ∈ env.allowed_roots,
        isHeadSeq (comps ((resolveAbs root).data)) (comps ((authPath env q).data)) =
          false) →
      is_path_authorized env q = (false, none, some ACCESS_DENIED_ERROR)) ∧
    is_path_authorized ⟨["/data"], "/home"⟩ "/data2/x" =
      (false, none, some ACCESS_DENIED_ERROR) := by
  have h1 : (p == "") = false := beq_eq_false_iff_ne.mpr hp
  have hroots : env.allowed_roots ≠ [] := List.ne_nil_of_mem hR
  have h2 : env.allowed_roots.isEmpty = false := by
    simpa [List.isEmpty_iff] using hroots
  refine ⟨?_, ?_, by decide⟩
  · simp only [is_path_authorized, h1, Bool.false_eq_true, if_false, h2, habs,
      Bool.not_true]
    have hany : env.allowed_roots.any (fun root =>
        commonpath (resolveAbs root) (resolveAbs (expanduser env.home p)) ==
          resolveAbs root) = true := by
      rw [List.any_eq_true]
      refine ⟨R, hR, ?_⟩
      rw [commonpath_eq_root R (expanduser env.home p) hdesc]
      exact beq_self_eq_true _
    rw [hany]
    simp [authPath]
  · intro q hq habsq hnone
    simp only [authPath] at hnone
    have hq1 : (q == "") = false := beq_eq_false_iff_ne.mpr hq
    simp only [is_path_authorized, hq1, Bool.false_eq_true, if_false, h2, habsq,
      Bool.not_true]
    have hany : env.allowed_roots.any (fun root =>
        commonpath (resolveAbs root) (resolveAbs (expanduser env.home q)) ==
          resolveAbs root) = false := by
      rw [List.any_eq_false]
      intro root hroot
      intro hcheck
      have hh := check_imp_head root (expanduser env.home q) hcheck
      rw [hnone root hroot] at hh
      simp at hh
    rw [hany]
    simp

/-- C2 witness: with the whitelist `["/data"]`, the descendant
`/data/sub` is authorized with its canonical form, and the sibling
`/data2/x` sharing the string prefix is denied. -/
theorem claim2_witness :
    is_path_authorized ⟨["/data"], "/home"⟩ "/data/sub" =
      (true, some "/data/sub", none) ∧
    is_path_authorized ⟨["/data"], "/home"⟩ "/data2/x" =
      (false, none, some ACCESS_DENIED_ERROR) := by
  have h := claim2_component_authorization ⟨["/data"], "/home"⟩ "/data" "/data/sub"
    (by decide) (by decide) (by decide) (by decide)
  exact ⟨h.1, h.2.2⟩

/-- C3 (amended): all denials of a nonempty absolute path against a
configured nonempty whitelist return the single uniform
`ACCESS_DENIED_ERROR` string, indistinguishable from one another; the
no-path, empty-whitelist and relative-path denials, however, each carry
their own distinct message (see the counterexample). -/
theorem claim3_uniform_denial_outside (env : Env) (p q : String)
    (hroots : env.allowed_roots ≠ []) (hp : p ≠ "") (hq : q ≠ "")
    (habsp : isAbsoluteChars (expanduser env.home p).data = true)
    (habsq : isAbsoluteChars (expanduser env.home q).data = true)
    (hdp : (is_path_authorized env p).1 = false)
    (hdq : (is_path_authorized env q).1 = false) :
    (is_path_authorized env p).2.2 = (is_path_authorized env q).2.2 ∧
    (is_path_authorized env p).2.2 = some ACCESS_DENIED_ERROR := by
  have h1 := auth_denied_outside env p hroots hp habsp hdp
  have h2 := auth_denied_outside env q hroots hq habsq hdq
  rw [h1, h2]
  exact ⟨rfl, rfl⟩

/-- C3 witness: two unauthorized absolute paths receive the identical
uniform denial string. -/
theorem claim3_witness :
    (is_path_authorized ⟨["/data"], "/home"⟩ "/etc/a").2.2 =
      (is_path_authorized ⟨["/data"], "/home"⟩ "/tmp/b").2.2 ∧
    (is_path_authorized ⟨["/data"], "/home"⟩ "/etc/a").2.2 =
      some ACCESS_DENIED_ERROR := by
  exact claim3_uniform_denial_outside ⟨["/data"], "/home"⟩ "/etc/a" "/tmp/b"
    (by decide) (by decide) (by decide) (by decide) (by decide) (by decide)
    (by decide)

/-- C3 counterexample: a relative path and an out-of-whitelist absolute
path are both denied, yet the two denial strings differ, so a caller can
distinguish the denial reasons — the claim's uniformity over all
pre-mutation denials is false. -/
theorem claim3_distinct_denials_counterexample :
    (is_path_authorized ⟨["/data"], "/home"⟩ "relative/path").1 = false ∧
    (is_path_authorized ⟨["/data"], "/home"⟩ "/etc/passwd").1 = false ∧
    (is_path_authorized ⟨["/data"], "/home"⟩ "relative/path").2.2 ≠
      (is_path_authorized ⟨["/data"], "/home"⟩ "/etc/passwd").2.2 := by
  decide

/-- C4 (amended): for argument values free of the delimiter characters —
the single-quote value delimiter for every argument and, for the
parenthesized-note variant of `create_folder`, also the parentheses the
trailing-note regex strips on — decoding an encoder output returns
exactly the tool name and the key-to-value mapping the encoder emitted:
keys `folder_path`, `old_path`/`new_path`, and `source`/`destination`
(the latter differing from `move_file`'s declared parameter names, see
the counterexample). -/
theorem claim4_codec_roundtrip (fp s d o n : String)
    (hfp : '\'' ∉ fp.data) (hfpo : '(' ∉ fp.data) (hfpc : ')' ∉ fp.data)
    (hs : '\'' ∉ s.data) (hd : '\'' ∉ d.data)
    (ho : '\'' ∉ o.data) (hn : '\'' ∉ n.data) :
    parse_staged_action (stagedCreateAction fp false) =
      some ⟨"create_folder", [("folder_path", fp)]⟩ ∧
    parse_staged_action (stagedCreateAction fp true) =
      some ⟨"create_folder", [("folder_path", fp)]⟩ ∧
    parse_staged_action (stagedMoveAction s d) =
      some ⟨"move_file", [("source", s), ("destination", d)]⟩ ∧
    parse_staged_action (stagedRenameAction o n) =
      some ⟨"rename_file", [("old_path", o), ("new_path", n)]⟩ :=
  ⟨parse_stagedCreate_plain fp hfp, parse_stagedCreate_note fp hfp hfpo hfpc,
    parse_stagedMove s d hs hd, parse_stagedRename o n ho hn⟩

/-- C4 witness: concrete round trips for all three tools, including the
parenthesized-note variant of `create_folder`. -/
theorem claim4_witness :
    parse_staged_action (stagedCreateAction "/a/new" false) =
      some ⟨"create_folder", [("folder_path", "/a/new")]⟩ ∧
    parse_staged_action (stagedCreateAction "/a/new" true) =
      some ⟨"create_folder", [("folder_path", "/a/new")]⟩ ∧
    parse_staged_action (stagedMoveAction "/a/b" "/c") =
      some ⟨"move_file", [("source", "/a/b"), ("destination", "/c")]⟩ ∧
    parse_staged_action (stagedRenameAction "/a/x" "/a/y") =
      some ⟨"rename_file", [("old_path", "/a/x"), ("new_path", "/a/y")]⟩ :=
  claim4_codec_roundtrip "/a/new" "/a/b" "/c" "/a/x" "/a/y"
    (by decide) (by decide) (by decide) (by decide) (by decide) (by decide)
    (by decide)

/-- C4 counterexample: two failures of the round trip as claimed.
`move_file`'s declared parameter names are `source_path` and
`destination_path`, but decoding the encoder's output yields the keys
`source` and `destination`, so decode ∘ encode is not the identity on a
`move_file` action keyed by its declared argument names.  And a quote-free
folder path containing `(` under the parenthesized-note encoding is
truncated: the trailing-note regex strips from the leftmost eligible `(`,
which lies inside the value, so `/a(b` decodes back as `/a`. -/
theorem claim4_roundtrip_counterexample :
    parse_staged_action (stagedMoveAction "/a" "/b") =
      some ⟨"move_file", [("source", "/a"), ("destination", "/b")]⟩ ∧
    parse_staged_action (stagedMoveAction "/a" "/b") ≠
      some ⟨"move_file", [("source_path", "/a"), ("destination_path", "/b")]⟩ ∧
    parse_staged_action (stagedCreateAction "/a(b" true) =
      some ⟨"create_folder", [("folder_path", "/a")]⟩ ∧
    parse_staged_action (stagedCreateAction "/a(b" true) ≠
      some ⟨"create_folder", [("folder_path", "/a(b")]⟩ := by
  decide

/-- C5: per-item confirmation policy.  On the queue `[A, B, C]` the inputs
`yes, yes, no` execute A, then B against the state A produced, skip C
without executing it, consume the whole queue with nothing forwarded
(Idle); and the confirm tokens are exactly `y` and `yes` after
lower-casing and trimming.  Each confirmation acts on the queue head
only, as the shape of the result shows. -/
theorem claim5_per_item_confirmation (env : Env) (fs : FS) (A B C : PendingAction) :
    process_staging_queue env fs [A, B, C] ["yes", "yes", "no"] =
      ((execute_single_action env (execute_single_action env fs A).1 B).1,
        ⟨[(execute_single_action env fs A).2,
          (execute_single_action env (execute_single_action env fs A).1 B).2],
          none⟩) ∧
    (∀ s : String, is_confirmation s =
      (normalizeInput s == "y" || normalizeInput s == "yes")) := by
  constructor
  · rfl
  · intro s
    cases h1 : normalizeInput s == "y" <;> cases h2 : normalizeInput s == "yes" <;>
      simp [is_confirmation, CONFIRM_KEYWORDS, List.contains, List.elem, h1, h2]

/-- C6: while a non-empty queue awaits confirmation, an input that is
neither a confirm token nor a cancel token returns at once: nothing is
executed, the filesystem is untouched, the entire remaining queue is
dropped, and the input line (as read, stripped) is handed back as the new
query for the orchestration layer. -/
theorem claim6_arbitrary_input_clears (env : Env) (fs : FS)
    (a : PendingAction) (rest : List PendingAction) (line : String)
    (lines : List String)
    (hc : is_confirmation (stripStr line) = false)
    (hx : is_cancellation (stripStr line) = false) :
    process_staging_queue env fs (a :: rest) (line :: lines) =
      (fs, ⟨[], some (stripStr line)⟩) := by
  simp only [process_staging_queue, hc, hx, Bool.false_eq_true, if_false]

/-- C6 witness: the input `tell me a joke` on a two-entry queue executes
nothing and is forwarded as the new query. -/
theorem claim6_witness :
    process_staging_queue ⟨["/w"], "/h"⟩ ⟨[("/w", EntryKind.dir)]⟩
      [⟨"create_folder", [("folder_path", "/w/a")]⟩,
        ⟨"create_folder", [("folder_path", "/w/b")]⟩]
      ["tell me a joke"] =
      (⟨[("/w", EntryKind.dir)]⟩, ⟨[], some "tell me a joke"⟩) :=
  claim6_arbitrary_input_clears ⟨["/w"], "/h"⟩ ⟨[("/w", EntryKind.dir)]⟩
    ⟨"create_folder", [("folder_path", "/w/a")]⟩
    [⟨"create_folder", [("folder_path", "/w/b")]⟩] "tell me a joke" []
    (by decide) (by decide)

/-- C7: when both paths are authorized, the old path exists and the new
path already exists, `rename_file` returns the destination-exists error
with no filesystem change for either value of the confirmed flag (the
check precedes the confirmed branch, so the staging forecast equals the
execution result); `move_file` under the same conditions imposes no such
precondition and stages the action. -/
theorem claim7_rename_dest_exists (env : Env) (fs : FS) (o n : String) (conf : Bool)
    (h1 : (is_path_authorized env o).1 = true)
    (h2 : (is_path_authorized env n).1 = true)
    (hold : fs.pathExists (authPath env o) = true)
    (hnew : fs.pathExists (authPath env n) = true) :
    rename_file env fs o n conf =
      (fs, "Error: Destination already exists: \"" ++ n ++
        "\". Use move_file to overwrite.") ∧
    move_file env fs o n false = (fs, stagedMoveAction o n) := by
  have hA := auth_true_elim env o h1
  have hB := auth_true_elim env n h2
  constructor
  · simp only [rename_file, hA, hB, Option.getD_some, hold, Bool.not_true,
      Bool.false_eq_true, if_false, hnew, if_true]
  · simp only [move_file, hA, hB, Option.getD_some, hold, Bool.not_true,
      Bool.false_eq_true, if_false, Bool.not_false, if_true]

/-- C7 witness: renaming `/w/s` onto the existing `/w/d` is rejected with
no change even when confirmed, while the same move stages. -/
theorem claim7_witness :
    rename_file ⟨["/w"], "/h"⟩
        ⟨[("/w", EntryKind.dir), ("/w/s", EntryKind.file), ("/w/d", EntryKind.file)]⟩
        "/w/s" "/w/d" true =
      (⟨[("/w", EntryKind.dir), ("/w/s", EntryKind.file), ("/w/d", EntryKind.file)]⟩,
        "Error: Destination already exists: \"/w/d\". Use move_file to overwrite.") ∧
    move_file ⟨["/w"], "/h"⟩
        ⟨[("/w", EntryKind.dir), ("/w/s", EntryKind.file), ("/w/d", EntryKind.file)]⟩
        "/w/s" "/w/d" false =
      (⟨[("/w", EntryKind.dir), ("/w/s", EntryKind.file), ("/w/d", EntryKind.file)]⟩,
        stagedMoveAction "/w/s" "/w/d") :=
  claim7_rename_dest_exists ⟨["/w"], "/h"⟩
    ⟨[("/w", EntryKind.dir), ("/w/s", EntryKind.file), ("/w/d", EntryKind.file)]⟩
    "/w/s" "/w/d" true (by decide) (by decide) (by decide) (by decide)

/-- C8: on an authorized path, `create_folder` whose target exists as a
directory returns the informational already-exists message with no
mutation for either value of the confirmed flag; a target existing as a
non-directory yields an error in both modes; and after a successful
confirmed creation, repeating the confirmed call reports already-exists
and changes nothing — the confirmed call is idempotent. -/
theorem claim8_create_idempotent (env : Env) (fs fs2 : FS) (p : String) (conf : Bool)
    (hauth : (is_path_authorized env p).1 = true) :
    (fs.isdir (authPath env p) = true →
      create_folder env fs p conf = (fs, "Folder already exists: \"" ++ p ++ "\"")) ∧
    (fs.pathExists (authPath env p) = true → fs.isdir (authPath env p) = false →
      create_folder env fs p conf =
        (fs, "Error: A file already exists at this path: \"" ++ p ++ "\"")) ∧
    (fs.pathExists (authPath env p) = false →
      comps ((authPath env p).data) ≠ [] →
      makedirs fs (authPath env p) = (fs2, none) →
      create_folder env fs p true =
        (fs2, "Successfully created folder: \"" ++ p ++ "\"") ∧
      create_folder env fs2 p true =
        (fs2, "Folder already exists: \"" ++ p ++ "\"")) := by
  have hA := auth_true_elim env p hauth
  refine ⟨?_, ?_, ?_⟩
  · intro hdir
    have hex := pathExists_of_isdir fs (authPath env p) hdir
    simp only [create_folder, hA, Option.getD_some, hex, if_true, hdir]
  · intro hex hdir
    simp only [create_folder, hA, Option.getD_some, hex, if_true, hdir,
      Bool.false_eq_true, if_false]
  · intro hex hne hmk
    have hr : (authPath env p).data = '/' :: joinSlash (comps ((authPath env p).data)) := by
      simp only [authPath]
      rw [comps_resolveAbs]
      rfl
    have hdir2 : fs2.isdir (authPath env p) = true :=
      makedirs_makes_target fs fs2 (authPath env p) hr hne hmk
    have hex2 := pathExists_of_isdir fs2 (authPath env p) hdir2
    constructor
    · simp only [create_folder, hA, Option.getD_some, hex, Bool.false_eq_true,
        if_false, Bool.not_true, hmk]
    · simp only [create_folder, hA, Option.getD_some, hex2, if_true, hdir2]

/-- C8 witness: the three behaviors at concrete states — existing
directory (informational, no change), existing file (error, no change),
and a confirmed creation followed by an idempotent repeat. -/
theorem claim8_witness :
    create_folder ⟨["/data"], "/home"⟩
        ⟨[("/data", EntryKind.dir), ("/data/x", EntryKind.dir)]⟩ "/data/x" true =
      (⟨[("/data", EntryKind.dir), ("/data/x", EntryKind.dir)]⟩,
        "Folder already exists: \"/data/x\"") ∧
    create_folder ⟨["/data"], "/home"⟩
        ⟨[("/data", EntryKind.dir), ("/data/x", EntryKind.file)]⟩ "/data/x" true =
      (⟨[("/data", EntryKind.dir), ("/data/x", EntryKind.file)]⟩,
        "Error: A file already exists at this path: \"/data/x\"") ∧
    create_folder ⟨["/data"], "/home"⟩ ⟨[("/data", EntryKind.dir)]⟩ "/data/x" true =
      (⟨[("/data", EntryKind.dir), ("/data/x", EntryKind.dir)]⟩,
        "Successfully created folder: \"/data/x\"") ∧
    create_folder ⟨["/data"], "/home"⟩
        ⟨[("/data", EntryKind.dir), ("/data/x", EntryKind.dir)]⟩ "/data/x" true =
      (⟨[("/data", EntryKind.dir), ("/data/x", EntryKind.dir)]⟩,
        "Folder already exists: \"/data/x\"") := by
  refine ⟨?_, ?_, ?_, ?_⟩
  · exact (claim8_create_idempotent ⟨["/data"], "/home"⟩
      ⟨[("/data", EntryKind.dir), ("/data/x", EntryKind.dir)]⟩
      ⟨[("/data", EntryKind.dir), ("/data/x", EntryKind.dir)]⟩ "/data/x" true
      (by decide)).1 (by decide)
  · exact (claim8_create_idempotent ⟨["/data"], "/home"⟩
      ⟨[("/data", EntryKind.dir), ("/data/x", EntryKind.file)]⟩
      ⟨[("/data", EntryKind.dir), ("/data/x", EntryKind.file)]⟩ "/data/x" true
      (by decide)).2.1 (by decide) (by decide)
  · exact ((claim8_create_idempotent ⟨["/data"], "/home"⟩
      ⟨[("/data", EntryKind.dir)]⟩
      ⟨[("/data", EntryKind.dir), ("/data/x", EntryKind.dir)]⟩ "/data/x" true
      (by decide)).2.2 (by decide) (by decide) (by decide)).1
  · exact ((claim8_create_idempotent ⟨["/data"], "/home"⟩
      ⟨[("/data", EntryKind.dir)]⟩
      ⟨[("/data", EntryKind.dir), ("/data/x", EntryKind.dir)]⟩ "/data/x" true
      (by decide)).2.2 (by decide) (by decide) (by decide)).2

/-- C9 (amended): a string without the `STAGED_ACTION:` marker, or whose
content lacks the ` -> ` separator, parses to the absent result; but when
marker and separator are both present the parser always returns an action
— on inputs with no parseable key/value pairs it returns the tool name
with an empty argument mapping rather than the absent result the claim
states (see the counterexample).  No case raises. -/
theorem claim9_malformed_parse (s : String) :
    (strStarts "STAGED_ACTION:" s = false → parse_staged_action s = none) ∧
    (splitFirst (" -> ".data) (trimChars (s.data.drop 14)) = none →
      parse_staged_action s = none) ∧
    (∀ t a, strStarts "STAGED_ACTION:" s = true →
      splitFirst (" -> ".data) (trimChars (s.data.drop 14)) = some (t, a) →
      (parse_staged_action s).isSome = true) := by
  refine ⟨?_, ?_, ?_⟩
  · intro h
    simp only [strStarts] at h
    simp only [parse_staged_action, parseCore, h, Bool.false_eq_true, if_false]
  · intro h
    by_cases hm : isPrefixList ("STAGED_ACTION:".data) s.data = true
    · simp only [parse_staged_action, parseCore, hm, if_true, h]
    · simp only [Bool.not_eq_true] at hm
      simp only [parse_staged_action, parseCore, hm, Bool.false_eq_true, if_false]
  · intro t a hm hsp
    simp only [strStarts] at hm
    simp only [parse_staged_action, parseCore, hm, if_true, hsp, Option.isSome_some]

/-- C9 witness: a missing marker and a missing separator each parse to the
absent result, while marker plus separator always produce an action. -/
theorem claim9_witness :
    parse_staged_action "just chatting" = none ∧
    parse_staged_action "STAGED_ACTION: foo" = none ∧
    (parse_staged_action "STAGED_ACTION: foo -> garbage").isSome = true :=
  ⟨(claim9_malformed_parse "just chatting").1 (by decide),
    (claim9_malformed_parse "STAGED_ACTION: foo").2.1 (by decide),
    (claim9_malformed_parse "STAGED_ACTION: foo -> garbage").2.2
      ("foo".data) ("garbage".data) (by decide) (by decide)⟩

/-- C9 counterexample: an input with marker and separator but no parseable
key/value pairs does not return the absent result — `parse_staged_action`
returns the tool name with an empty argument mapping, refuting the claim's
third malformed case. -/
theorem claim9_empty_args_counterexample :
    parse_staged_action "STAGED_ACTION: foo -> garbage" = some ⟨"foo", []⟩ ∧
    parse_staged_action "STAGED_ACTION: foo -> garbage" ≠ none := by
  decide

/-- C10 (amended): for argument values free of the quote delimiter,
decoding a `move_file` staging string and replaying it through
`execute_single_action` raises the missing-keyword `TypeError` (the
encoder emits `source`/`destination` while `move_file` declares
`source_path`/`destination_path`), which is caught and returned as an
`Error` string with the filesystem untouched; values containing quotes
can inject the declared keys and defeat this (see the counterexample). -/
theorem claim10_replay_key_mismatch (env : Env) (fs : FS) (s d : String)
    (hs : '\'' ∉ s.data) (hd : '\'' ∉ d.data) :
    (execute_single_action env fs
        ((parse_staged_action (stagedMoveAction s d)).getD ⟨"", []⟩)).1 = fs ∧
    strStarts "Error"
      (execute_single_action env fs
        ((parse_staged_action (stagedMoveAction s d)).getD ⟨"", []⟩)).2 = true := by
  rw [parse_stagedMove s d hs hd]
  exact ⟨rfl, rfl⟩

/-- C10 witness: a concrete staged move replays into an error string and
leaves the filesystem unchanged. -/
theorem claim10_witness :
    (execute_single_action ⟨["/w"], "/h"⟩
        ⟨[("/w", EntryKind.dir), ("/w/s", EntryKind.file)]⟩
        ((parse_staged_action (stagedMoveAction "/w/s" "/w/d")).getD ⟨"", []⟩)).1 =
      ⟨[("/w", EntryKind.dir), ("/w/s", EntryKind.file)]⟩ ∧
    strStarts "Error"
      (execute_single_action ⟨["/w"], "/h"⟩
        ⟨[("/w", EntryKind.dir), ("/w/s", EntryKind.file)]⟩
        ((parse_staged_action (stagedMoveAction "/w/s" "/w/d")).getD ⟨"", []⟩)).2 =
      true :=
  claim10_replay_key_mismatch ⟨["/w"], "/h"⟩
    ⟨[("/w", EntryKind.dir), ("/w/s", EntryKind.file)]⟩ "/w/s" "/w/d"
    (by decide) (by decide)

/-- C10 counterexample: argument values containing quote characters can
inject `source_path`/`destination_path` keys into the encoded string, so
the confirmed replay binds `move_file`'s declared parameters, executes,
mutates the filesystem and returns a success string — refuting the claim's
universal quantification over all encoder outputs. -/
theorem claim10_injection_counterexample :
    execute_single_action ⟨["/w"], "/h"⟩
        ⟨[("/w", EntryKind.dir), ("/w/s", EntryKind.file)]⟩
        ((parse_staged_action
          (stagedMoveAction "/w/s', source_path='/w/s"
            "/w/d', destination_path='/w/d")).getD ⟨"", []⟩) =
      (⟨[("/w", EntryKind.dir), ("/w/d", EntryKind.file)]⟩,
        "Successfully moved file \"/w/s\" to \"/w/d\"") ∧
    (⟨[("/w", EntryKind.dir), ("/w/d", EntryKind.file)]⟩ : FS) ≠
      ⟨[("/w", EntryKind.dir), ("/w/s", EntryKind.file)]⟩ ∧
    strStarts "Error" "Successfully moved file \"/w/s\" to \"/w/d\"" = false := by
  decide

end Directorium
